import Mathlib

/-
 Shallow embedding of the onizd "interlayer map" server (src/point.rs,
 src/mat.rs, src/map.rs, and the handshake portion of src/main.rs).

 Modelling conventions:
 - Rust `HashMap<K, V>` is modelled as an association list `List (K × V)`
   with pairwise-distinct keys (the `or_insert` / `Entry` API is mirrored by
   `alookup` / `aset` / `aremove`); iteration order of a `HashMap` is
   unspecified in Rust, the model fixes the list order.
 - Rust `u32` / `u64` values are `Nat` with explicit `% 2^32` at the one
   place the source performs a narrowing `as u32` cast; `i32` values are
   `Int`, with saturating casts written out where the source uses them.
 - Rust `f32` mass/temperature/fraction arithmetic is idealised as exact
   rational (`ℚ`) arithmetic; the control flow of the translated functions
   is unchanged.
 - Strings are modelled as `List Char`; the decimal formatter mirrors
   Rust's `format!("{}", i32)` and the parser mirrors `str::parse::<i32>`.
-/

set_option autoImplicit false

namespace Onizd

/- Association-list primitives standing in for std's HashMap entry API. -/

def alookup {κ α : Type} [DecidableEq κ] : List (κ × α) → κ → Option α
  | [], _ => none
  | (k, v) :: t, q => if k = q then some v else alookup t q

def aset {κ α : Type} [DecidableEq κ] : List (κ × α) → κ → α → List (κ × α)
  | [], q, w => [(q, w)]
  | (k, v) :: t, q, w => if k = q then (k, w) :: t else (k, v) :: aset t q w

def aremove {κ α : Type} [DecidableEq κ] : List (κ × α) → κ → List (κ × α)
  | [], _ => []
  | (k, v) :: t, q => if k = q then t else (k, v) :: aremove t q

/- src/point.rs -/

structure Point where
  x : Int
  y : Int
  z : Int
deriving DecidableEq, Repr

def Point.new (x y z : Int) : Point := ⟨x, y, z⟩

/- src/mat.rs -/

inductive Phase where
  | Gas
  | Liquid
deriving DecidableEq, Repr

/-- `Phase::get_max_stack_size`: Gas = 1.0 kg, Liquid = 10.0 kg. -/
def Phase.get_max_stack_size : Phase → ℚ
  | .Gas => 1
  | .Liquid => 10

structure Germs where
  id : Int
  count : Int
deriving DecidableEq, Repr

structure MatPacket where
  element : Int
  mass : ℚ
  temperature : ℚ
  germs : Option Germs
deriving DecidableEq, Repr

/-- Saturating `as i32` cast of an integer (Rust float-to-int `as` saturates;
the argument here is always an exact integer in the ℚ idealisation). -/
def sat_i32 (z : Int) : Int := max (-(2 ^ 31)) (min (2 ^ 31 - 1) z)

/-- Rust `i32::saturating_sub`. -/
def isat_sub (a b : Int) : Int := max (-(2 ^ 31)) (min (2 ^ 31 - 1) (a - b))

/-- `Germs::split`: split germs by a mass fraction, the fraction ending up on
the left; if `frac` is not exactly zero at least one germ lands on the left. -/
def Germs.split (g : Germs) (frac : ℚ) : Germs × Germs :=
  if frac ≥ 1 ∨ g.count = 0 then (g, ⟨g.id, 0⟩)
  else if frac ≤ 0 then (⟨g.id, 0⟩, g)
  else
    let splat := max (sat_i32 ⌈(g.count : ℚ) * frac⌉) 1
    let splot := isat_sub g.count splat
    (⟨g.id, splat⟩, ⟨g.id, splot⟩)

/-- `Germs::maybe`: `None` if the count is zero. -/
def Germs.maybe (g : Germs) : Option Germs :=
  if g.count = 0 then none else some g

/-- Tail of `Germs::merge` after the match has unwrapped `b`: the
`frac <= 0.0` early return, then the split with `a`'s count added into the
head side. -/
def Germs.mergeTail (a : Option Germs) (b : Germs) (frac : ℚ) :
    Option Germs × Option Germs :=
  if frac ≤ 0 then (a, some b)
  else
    let s := b.split frac
    let s0 := match a with
      | some ga => Germs.mk s.1.id (s.1.count + ga.count)
      | none => s.1
    (s0.maybe, s.2.maybe)

/-- `Germs::merge(a, b, frac)`: merge two optional germ stacks when a packet
merge moves `frac` of `b`'s mass into `a`'s packet. -/
def Germs.merge (a b : Option Germs) (frac : ℚ) :
    Option Germs × Option Germs :=
  match a, b with
  | none, none => (none, none)
  | some ga, none => (some ga, none)
  | some ga, some gb =>
    if ga.id ≠ gb.id then
      if frac < 1 then (some ga, some gb)
      else if ga.count = gb.count then
        if ga.id < gb.id then (some ga, some gb) else (some gb, some ga)
      else if ga.count > gb.count then (some ga, some gb)
      else (some gb, some ga)
    else Germs.mergeTail (some ga) gb frac
  | none, some gb => Germs.mergeTail none gb frac

/-- `MatPacket::merge`: merge two packets up to the phase's max stack size.
`none` = impossible; `some (merged, none)` = one packet; `some (merged, some
spare)` = merged head plus leftover tail. -/
def MatPacket.merge (self other : MatPacket) (phase : Phase) :
    Option (MatPacket × Option MatPacket) :=
  if self.element ≠ other.element then none
  else
    let maxStack := phase.get_max_stack_size
    let room := maxStack - self.mass
    if room ≤ 0 then none
    else
      let buff := min other.mass room
      let leftover := other.mass - buff
      let germs := Germs.merge self.germs other.germs (buff / other.mass)
      let merged : MatPacket :=
        ⟨self.element, self.mass + buff,
         (self.temperature * self.mass + other.temperature * buff)
           / (self.mass + buff),
         germs.1⟩
      let rest : Option MatPacket :=
        if leftover > 0 then
          some ⟨self.element, leftover, other.temperature, germs.2⟩
        else none
      some (merged, rest)

/-- `MatPacket::has_room`: strictly below the phase's max stack size. -/
def MatPacket.has_room (p : MatPacket) (phase : Phase) : Bool :=
  p.mass < phase.get_max_stack_size

/-- `MatPacket::is_oversized`: strictly above the phase's max stack size. -/
def MatPacket.is_oversized (p : MatPacket) (phase : Phase) : Bool :=
  p.mass > phase.get_max_stack_size

/- src/map.rs constants -/

def MAX_STORED_ENERGY : Nat := 10000
def MAX_STORED_PACKETS : Nat := 10
def MAX_REGISTRATIONS : Nat := 7
def MAX_STORED_OBJECTS : Nat := 3

/-- `ClientID` is a `u64` counter (`pub type ClientID = u64`); only equality
is used by the map. -/
abbrev ClientID : Type := Nat

/-- The interlayer `Map` state. The `registration_senders` fan-out only
performs channel I/O and holds no map-observable state, so it is omitted. -/
structure Map where
  energy : List (Point × Nat)
  gas_packets : List (Point × List MatPacket)
  liquid_packets : List (Point × List MatPacket)
  objects : List (Point × List (List Nat))
  registrations : List (Point × List (ClientID × String))
deriving DecidableEq, Repr

/-- `Map::new`. -/
def Map.new : Map := ⟨[], [], [], [], []⟩

/-- `Map::add_joules`: insert energy, returning the spare amount (the `spill
as u32` narrowing cast is the `% 2^32`). -/
def Map.add_joules (m : Map) (loc : Point) (amt : Nat) : Nat × Map :=
  let slot := (alookup m.energy loc).getD 0
  let new_amount := slot + amt
  let capped := min MAX_STORED_ENERGY new_amount
  let spill := (new_amount - capped) % 2 ^ 32
  (spill, { m with energy := aset m.energy loc capped })

/-- `Map::sub_joules`: remove up to `amt` energy, returning the amount
actually removed. -/
def Map.sub_joules (m : Map) (loc : Point) (amt : Nat) : Nat × Map :=
  match alookup m.energy loc with
  | none => (0, m)
  | some slot =>
    let slosh := min slot amt
    (slosh, { m with energy := aset m.energy loc (slot - amt) })

/-- The `Entry::Occupied` loop body of `Map::add_packet`, recursing over the
queue; `len` is the queue length captured before the loop. The returned list
is the suffix being walked (callers re-attach the prefix). -/
def add_packet_vec (packet : MatPacket) (phase : Phase) (len : Nat) :
    List MatPacket → Bool × List MatPacket
  | [] =>
    if len ≥ MAX_STORED_PACKETS then (false, [])
    else (true, [packet])
  | el :: rest =>
    if el.has_room phase then
      match el.merge packet phase with
      | none =>
        let r := add_packet_vec packet phase len rest
        (r.1, el :: r.2)
      | some (merged, none) => (true, merged :: rest)
      | some (merged, some spare) =>
        if len ≥ MAX_STORED_PACKETS then (false, el :: rest)
        else (true, merged :: (rest ++ [spare]))
    else
      let r := add_packet_vec packet phase len rest
      (r.1, el :: r.2)

/-- `Map::add_packet`: all-or-nothing insertion of a packet into the gas or
liquid queue at a point. -/
def Map.add_packet (m : Map) (loc : Point) (packet : MatPacket)
    (phase : Phase) : Bool × Map :=
  match phase with
  | .Gas =>
    match alookup m.gas_packets loc with
    | none => (true, { m with gas_packets := aset m.gas_packets loc [packet] })
    | some vec =>
      let r := add_packet_vec packet phase vec.length vec
      (r.1, { m with gas_packets := aset m.gas_packets loc r.2 })
  | .Liquid =>
    match alookup m.liquid_packets loc with
    | none =>
      (true, { m with liquid_packets := aset m.liquid_packets loc [packet] })
    | some vec =>
      let r := add_packet_vec packet phase vec.length vec
      (r.1, { m with liquid_packets := aset m.liquid_packets loc r.2 })

/-- `Map::pop_packet`: remove and return the head of the selected queue. -/
def Map.pop_packet (m : Map) (loc : Point) (phase : Phase) :
    Option MatPacket × Map :=
  match phase with
  | .Gas =>
    match alookup m.gas_packets loc with
    | none => (none, m)
    | some [] => (none, m)
    | some (h :: t) =>
      (some h, { m with gas_packets := aset m.gas_packets loc t })
  | .Liquid =>
    match alookup m.liquid_packets loc with
    | none => (none, m)
    | some [] => (none, m)
    | some (h :: t) =>
      (some h, { m with liquid_packets := aset m.liquid_packets loc t })

/-- The registration count of `Map::register`: `slot.iter().map(|x| x.0 ==
client_id).fold(0, ...)`. -/
def countMatching (l : List (ClientID × String)) (c : ClientID) : Nat :=
  l.foldl (fun a e => if e.1 = c then a + 1 else a) 0

/-- `Map::register`: append a registration unless the client already holds
`MAX_REGISTRATIONS` at the point. (The fan-out send is channel I/O and not
part of the modelled state.) -/
def Map.register (m : Map) (loc : Point) (client_id : ClientID)
    (what : String) : Bool × Map :=
  let slot := (alookup m.registrations loc).getD []
  let count := countMatching slot client_id
  if count ≥ MAX_REGISTRATIONS then (false, m)
  else
    let slot' := slot ++ [(client_id, what)]
    (true, { m with registrations := aset m.registrations loc slot' })

/-- `Map::prune`: drop the energy entry when zero and the gas and liquid
entries when empty. (The objects store is not touched by the source.) -/
def Map.prune (m : Map) (loc : Point) : Map :=
  let m1 :=
    match alookup m.energy loc with
    | none => m
    | some v => if v = 0 then { m with energy := aremove m.energy loc } else m
  let m2 :=
    match alookup m1.gas_packets loc with
    | none => m1
    | some vec =>
      if vec.isEmpty then
        { m1 with gas_packets := aremove m1.gas_packets loc }
      else m1
  match alookup m2.liquid_packets loc with
  | none => m2
  | some vec =>
    if vec.isEmpty then
      { m2 with liquid_packets := aremove m2.liquid_packets loc }
    else m2

/-- `Map::unregister`: remove every `(client_id, what)` pair at a point; if
that empties (or finds absent) the registration list, prune the point. -/
def Map.unregister (m : Map) (loc : Point) (client_id : ClientID)
    (what : String) : Map :=
  match alookup m.registrations loc with
  | none => m.prune loc
  | some vec =>
    let vec' := vec.filter (fun e => ¬(e.1 = client_id ∧ e.2 = what))
    if vec'.isEmpty then
      ({ m with registrations := aremove m.registrations loc }).prune loc
    else { m with registrations := aset m.registrations loc vec' }

/-- `Map::unregister_all`: remove all of a client's registrations everywhere
(the `retain` loop), then prune every point whose list became empty. -/
def Map.unregister_all (m : Map) (client_id : ClientID) : Map :=
  let filtered := m.registrations.map
    (fun e => (e.1, e.2.filter (fun r => ¬ r.1 = client_id)))
  let prunes := (filtered.filter (fun e => e.2.isEmpty)).map Prod.fst
  let kept := filtered.filter (fun e => ¬ e.2.isEmpty)
  prunes.foldl Map.prune { m with registrations := kept }

/-- `Map::add_object`: push an opaque object unless the queue is full. -/
def Map.add_object (m : Map) (loc : Point) (object : List Nat) : Bool × Map :=
  match alookup m.objects loc with
  | none => (true, { m with objects := aset m.objects loc [object] })
  | some vec =>
    if vec.length ≥ MAX_STORED_OBJECTS then (false, m)
    else (true, { m with objects := aset m.objects loc (vec ++ [object]) })

/-- `Map::pop_object`: remove and return the head object. -/
def Map.pop_object (m : Map) (loc : Point) : Option (List Nat) × Map :=
  match alookup m.objects loc with
  | none => (none, m)
  | some [] => (none, m)
  | some (h :: t) => (some h, { m with objects := aset m.objects loc t })

/-- `Map::clear`. -/
def Map.clear (_m : Map) : Map := Map.new

/- Decimal formatting and parsing of i32 values, mirroring Rust's
`format!("{}", x)` and `str::parse::<i32>()`. The formatter extracts base-10
digits little-endian with a structural fuel bound. -/

def natToDigitsRev (fuel n : Nat) : List Nat :=
  match fuel with
  | 0 => []
  | fuel' + 1 => if n = 0 then [] else n % 10 :: natToDigitsRev fuel' (n / 10)

/-- Decimal representation of a natural number as characters. -/
def natRepr (n : Nat) : List Char :=
  if n = 0 then ['0']
  else (natToDigitsRev (n + 1) n).reverse.map (fun d => Char.ofNat (48 + d))

/-- Decimal representation of an `i32`, as produced by Rust's formatter. -/
def intChars (x : Int) : List Char :=
  if x < 0 then '-' :: natRepr x.natAbs else natRepr x.natAbs

/-- `Point::as_string`: `"x,y"` when z = 0, else `"x,y,z"`. -/
def Point.as_string (p : Point) : List Char :=
  if p.z = 0 then intChars p.x ++ ',' :: intChars p.y
  else intChars p.x ++ ',' :: intChars p.y ++ ',' :: intChars p.z

/-- Value of a decimal digit character, `none` for non-digits. -/
def digitVal (c : Char) : Option Nat :=
  if 48 ≤ c.toNat ∧ c.toNat ≤ 57 then some (c.toNat - 48) else none

def parseDigitsGo (acc : Nat) : List Char → Option Nat
  | [] => some acc
  | c :: r =>
    match digitVal c with
    | some d => parseDigitsGo (acc * 10 + d) r
    | none => none

/-- Parse a nonempty all-digit character run as a natural number. -/
def parseNatChars (l : List Char) : Option Nat :=
  match l with
  | [] => none
  | _ => parseDigitsGo 0 l

/-- Rust `str::parse::<i32>`: optional sign, digits, i32 range check. -/
def parse_i32 (l : List Char) : Option Int :=
  match l with
  | [] => none
  | c :: r =>
    if c = '+' then
      (parseNatChars r).bind
        (fun n => if n ≤ 2 ^ 31 - 1 then some (n : Int) else none)
    else if c = '-' then
      (parseNatChars r).bind
        (fun n => if n ≤ 2 ^ 31 then some (-(n : Int)) else none)
    else
      (parseNatChars (c :: r)).bind
        (fun n => if n ≤ 2 ^ 31 - 1 then some (n : Int) else none)

/-- Rust `str::split(",")` over a character list: the separators delimit
pieces, an empty input yields one empty piece. -/
def splitComma : List Char → List (List Char)
  | [] => [[]]
  | c :: rest =>
    if c = ',' then [] :: splitComma rest
    else
      match splitComma rest with
      | [] => [[c]]
      | s :: ss => (c :: s) :: ss

/-- The key-parsing step of `Map::try_load`: split on commas, require exactly
two components, parse both as `i32` (anything else is skipped). -/
def parseKey (k : List Char) : Option Point :=
  match splitComma k with
  | [xs, ys] =>
    match parse_i32 xs, parse_i32 ys with
    | some x, some y => some ⟨x, y, 0⟩
    | _, _ => none
  | _ => none

/- Snapshot format (src/map.rs try_save / try_load). A saved tile is a JSON
object with optional `energy`, `gas_packets`, `liquid_packets`, `objects`
fields. MatPacket serde serialisation round-trips and is modelled as the
identity; an object's base64 transport is modelled as the raw byte list
together with the encoded length `4 * ((len + 2) / 3)` that the real base64
string would have. -/

structure TileJson where
  energy : Option Nat
  gas_packets : Option (List MatPacket)
  liquid_packets : Option (List MatPacket)
  objects : Option (List (List Nat))
deriving DecidableEq, Repr

def emptyTile : TileJson := ⟨none, none, none, none⟩

/-- Length of the base64 encoding of `n` raw bytes (standard padded). -/
def b64len (n : Nat) : Nat := 4 * ((n + 2) / 3)

/-- `set_tile_key`: insert a tile field under the point's string key in the
top-level JSON object, creating the tile object if absent. -/
def setStrKey (s : List (List Char × TileJson)) (k : List Char)
    (f : TileJson → TileJson) : List (List Char × TileJson) :=
  match alookup s k with
  | none => s ++ [(k, f emptyTile)]
  | some t => aset s k (f t)

/-- `Map::try_save`: serialise every tile with positive energy or a nonempty
queue. (serde_json's map ordering is abstracted by the association list; the
load result is order-insensitive because keys are distinct.) -/
def Map.try_save (m : Map) : List (List Char × TileJson) :=
  let s := m.energy.foldl
    (fun s kv =>
      if kv.2 > 0 then
        setStrKey s kv.1.as_string (fun t => { t with energy := some kv.2 })
      else s) []
  let s := m.gas_packets.foldl
    (fun s kv =>
      if kv.2.length > 0 then
        setStrKey s kv.1.as_string
          (fun t => { t with gas_packets := some kv.2 })
      else s) s
  let s := m.liquid_packets.foldl
    (fun s kv =>
      if kv.2.length > 0 then
        setStrKey s kv.1.as_string
          (fun t => { t with liquid_packets := some kv.2 })
      else s) s
  m.objects.foldl
    (fun s kv =>
      if kv.2.length > 0 then
        setStrKey s kv.1.as_string (fun t => { t with objects := some kv.2 })
      else s) s

/-- Parsed top-level JSON of a snapshot file: an object or anything else. -/
inductive JsonTop where
  | object (entries : List (List Char × TileJson))
  | other

def u32max : Nat := 4294967295

/-- The per-tile body of the `Map::try_load` loop: energy via `add_joules`
(skipped unless it fits `u32`), then each gas packet, each liquid packet and
each object (with the two length checks) through the normal map operations. -/
def loadTile (max_object_size : Nat) (m : Map) (point : Point)
    (tile : TileJson) : Map :=
  let max_object_encoded_size := (max_object_size + 2) * 4 / 3
  let m :=
    match tile.energy with
    | some n => if n ≤ u32max then (m.add_joules point n).2 else m
    | none => m
  let m :=
    match tile.gas_packets with
    | some arr =>
      arr.foldl (fun m packet => (m.add_packet point packet Phase.Gas).2) m
    | none => m
  let m :=
    match tile.liquid_packets with
    | some arr =>
      arr.foldl (fun m packet => (m.add_packet point packet Phase.Liquid).2) m
    | none => m
  match tile.objects with
  | some arr =>
    arr.foldl
      (fun m obj =>
        if b64len obj.length > max_object_encoded_size then m
        else if obj.length ≤ max_object_size then (m.add_object point obj).2
        else m) m
  | none => m

/-- The entry loop of `Map::try_load`: keys that fail to parse are skipped
silently. -/
def loadEntries (max_object_size : Nat)
    (entries : List (List Char × TileJson)) (m : Map) : Map :=
  entries.foldl
    (fun m kt =>
      match parseKey kt.1 with
      | some point => loadTile max_object_size m point kt.2
      | none => m) m

/-- `Map::try_load`: clear the map, reject a non-object top level, then run
the entry loop from the blank map. -/
def Map.try_load (_m : Map) (j : JsonTop) (max_object_size : Nat) :
    Except String Map :=
  match j with
  | .other => .error "saved map is not a JSON object"
  | .object entries => .ok (loadEntries max_object_size entries Map.new)

/- Handshake portion of src/main.rs `inner_client`, after the first message
has been framed and decoded. The fields record the source's individual
tests: `message["type"] == "hello"`, the serde parse of
`message["compression"]` (`none` = parse error), `message["proto"] ==
"oniz"`, and `message["version"].as_i64()`. Only the handshake-phase sends
are modelled. -/

inductive CompressionType where
  | Zlib
deriving DecidableEq, Repr

structure HelloParsed where
  isHello : Bool
  compression : Option (Option CompressionType)
  protoIsOniz : Bool
  version : Option Int
deriving DecidableEq, Repr

inductive ServerMsg where
  | handshake_error (what : String)
deriving DecidableEq, Repr

/-- The handshake decision logic of `inner_client` (src/main.rs lines
218-300): returns the handshake-phase messages sent to the peer, and either
an error (connection closed) or `(proto_version, may_send_handshake_error)`
exactly as the source computes them. -/
def inner_client_handshake (msg : HelloParsed) :
    List ServerMsg × Except String (Int × Bool) :=
  if ¬ msg.isHello then ([], .error "no hello in handshake")
  else
    match msg.compression with
    | none =>
      ([.handshake_error "compression_type_unknown"],
       .error "client requested an unknown compression type")
    | some _ =>
      if ¬ msg.protoIsOniz then
        ([.handshake_error "unknown_protocol"],
         .error "handshake is for wrong protocol")
      else
        match msg.version with
        | some 0 => ([], .ok (2, false))
        | some 1 => ([], .ok (2, true))
        | some 2 => ([], .ok (2, true))
        | some v =>
          if v < 0 then
            ([.handshake_error "version_too_old"], .error "client is too old")
          else
            ([.handshake_error "version_too_new"],
             .error "client is too new, you must upgrade this server")
        | none =>
          ([.handshake_error "bad_version"],
           .error "nonsense version in handshake")

/- Derived state observations and invariant predicates used by the
verification below. -/

/-- Total mass held in a packet list. -/
def qmass (l : List MatPacket) : ℚ := (l.map MatPacket.mass).sum

/-- The queue store selected by a phase (the `match phase` at the top of
`add_packet` / `pop_packet`). -/
def Map.phase_store (m : Map) (phase : Phase) :
    List (Point × List MatPacket) :=
  match phase with
  | .Gas => m.gas_packets
  | .Liquid => m.liquid_packets

/-- Total mass stored at a point in the selected phase's queue. -/
def queueMass (m : Map) (p : Point) (phase : Phase) : ℚ :=
  qmass ((alookup (m.phase_store phase) p).getD [])

/-- The capacity bounds of the map: every gas and liquid queue holds at most
`MAX_STORED_PACKETS` packets, every object queue at most
`MAX_STORED_OBJECTS` objects, and every client holds at most
`MAX_REGISTRATIONS` registrations at any one point. -/
def BoundedL (m : Map) : Prop :=
  (∀ kv ∈ m.gas_packets, kv.2.length ≤ MAX_STORED_PACKETS) ∧
  (∀ kv ∈ m.liquid_packets, kv.2.length ≤ MAX_STORED_PACKETS) ∧
  (∀ kv ∈ m.objects, kv.2.length ≤ MAX_STORED_OBJECTS) ∧
  (∀ kv ∈ m.registrations, ∀ e ∈ kv.2,
    countMatching kv.2 e.1 ≤ MAX_REGISTRATIONS)

instance (m : Map) : Decidable (BoundedL m) := by
  unfold BoundedL; infer_instance

/-- A single `add_joules` or `sub_joules` call in a call sequence. -/
inductive EnergyOp where
  | add (amt : Nat)
  | sub (amt : Nat)
deriving DecidableEq, Repr

def EnergyOp.amt : EnergyOp → Nat
  | .add a => a
  | .sub a => a

/-- Run a sequence of energy calls at one point, accumulating the map, the
total `spare` returned by the adds, and the total `taken` returned by the
subs. -/
def runOps (p : Point) : List EnergyOp → Map → Map × Nat × Nat
  | [], m => (m, 0, 0)
  | .add a :: r, m =>
    let x := m.add_joules p a
    let y := runOps p r x.2
    (y.1, x.1 + y.2.1, y.2.2)
  | .sub a :: r, m =>
    let x := m.sub_joules p a
    let y := runOps p r x.2
    (y.1, y.2.1, x.1 + y.2.2)

/-- Total amount passed to the `add_joules` calls of a sequence. -/
def sumAdds : List EnergyOp → Nat
  | [] => 0
  | .add a :: r => a + sumAdds r
  | .sub _ :: r => sumAdds r

/-- A point as actually constructed by the server: z = 0 and both
coordinates in `i32` range. -/
def PtOK (p : Point) : Prop :=
  p.z = 0 ∧ -(2 ^ 31) ≤ p.x ∧ p.x < 2 ^ 31 ∧ -(2 ^ 31) ≤ p.y ∧ p.y < 2 ^ 31

instance (p : Point) : Decidable (PtOK p) := by
  unfold PtOK; infer_instance

/-- One step of re-inserting a saved queue through `add_packet` at a point
the cleared map has no entry for: a vacant entry takes the first packet, an
occupied one runs the queue walk. -/
def replayStep (phase : Phase) (st : Option (List MatPacket))
    (packet : MatPacket) : Option (List MatPacket) :=
  match st with
  | none => some [packet]
  | some vec => some (add_packet_vec packet phase vec.length vec).2

/-- Replaying a whole queue from an absent entry. -/
def replay (phase : Phase) (q : List MatPacket) : Option (List MatPacket) :=
  q.foldl (replayStep phase) none

/-- The operational invariants of a map that reaches `try_save`: hash-map
keys are distinct, all points come from the server (z = 0, i32 coords),
stored energy is capped, nonempty queues are fixed points of the
`add_packet` replay (the source's "at most one non-full packet per element"
discipline), and object queues respect the count and size bounds enforced
at the protocol edge. -/
def SaveInv (m : Map) (max_object_size : Nat) : Prop :=
  (m.energy.map Prod.fst).Nodup ∧
  (m.gas_packets.map Prod.fst).Nodup ∧
  (m.liquid_packets.map Prod.fst).Nodup ∧
  (m.objects.map Prod.fst).Nodup ∧
  (∀ kv ∈ m.energy, PtOK kv.1 ∧ kv.2 ≤ MAX_STORED_ENERGY) ∧
  (∀ kv ∈ m.gas_packets, PtOK kv.1 ∧
    (kv.2 ≠ [] → replay Phase.Gas kv.2 = some kv.2)) ∧
  (∀ kv ∈ m.liquid_packets, PtOK kv.1 ∧
    (kv.2 ≠ [] → replay Phase.Liquid kv.2 = some kv.2)) ∧
  (∀ kv ∈ m.objects, PtOK kv.1 ∧ kv.2.length ≤ MAX_STORED_OBJECTS ∧
    ∀ b ∈ kv.2, b.length ≤ max_object_size)

instance (m : Map) (mos : Nat) : Decidable (SaveInv m mos) := by
  unfold SaveInv; infer_instance

/-- The tile object `try_save` emits for a point: each store contributes its
value exactly when it is positive / nonempty. -/
def tileOf (m : Map) (p : Point) : TileJson :=
  ⟨(alookup m.energy p).bind (fun v => if v > 0 then some v else none),
   (alookup m.gas_packets p).bind
     (fun q => if q.length > 0 then some q else none),
   (alookup m.liquid_packets p).bind
     (fun q => if q.length > 0 then some q else none),
   (alookup m.objects p).bind
     (fun q => if q.length > 0 then some q else none)⟩

/- Proof-layer decomposition of `try_save`: each of its four loops is an
instance of this generic fold (see `try_save_eq`). -/

def saveFold {β : Type} (pred : β → Prop) [DecidablePred pred]
    (u : β → TileJson → TileJson) (l : List (Point × β))
    (s : List (List Char × TileJson)) : List (List Char × TileJson) :=
  l.foldl (fun s kv =>
    if pred kv.2 then setStrKey s kv.1.as_string (u kv.2) else s) s

/- Proof-layer decompositions and predicates for the pruning analysis.
`Map.prune` is definitionally the composition of the three steps below (see
`prune_eq_steps`). -/

def pruneEnergyStep (loc : Point) (m : Map) : Map :=
  match alookup m.energy loc with
  | none => m
  | some v =>
    if v = 0 then { m with energy := aremove m.energy loc } else m

def pruneGasStep (loc : Point) (m : Map) : Map :=
  match alookup m.gas_packets loc with
  | none => m
  | some vec =>
    if vec.isEmpty then
      { m with gas_packets := aremove m.gas_packets loc }
    else m

def pruneLiquidStep (loc : Point) (m : Map) : Map :=
  match alookup m.liquid_packets loc with
  | none => m
  | some vec =>
    if vec.isEmpty then
      { m with liquid_packets := aremove m.liquid_packets loc }
    else m

/-- The point's energy is zero-or-absent and its gas and liquid queues are
empty-or-absent: the state in which `prune` may drop the entries. -/
def EmptyAt (m : Map) (p : Point) : Prop :=
  (alookup m.energy p = none ∨ alookup m.energy p = some 0) ∧
  (alookup m.gas_packets p = none ∨ alookup m.gas_packets p = some []) ∧
  (alookup m.liquid_packets p = none ∨ alookup m.liquid_packets p = some [])

instance (m : Map) (p : Point) : Decidable (EmptyAt m p) := by
  unfold EmptyAt; infer_instance

/-- The point is absent from the energy, gas-queue and liquid-queue stores. -/
def PrunedAt (m : Map) (p : Point) : Prop :=
  alookup m.energy p = none ∧ alookup m.gas_packets p = none ∧
  alookup m.liquid_packets p = none

/-- Distinct hash-map keys in the three prunable stores. -/
def StoreNodup (m : Map) : Prop :=
  (m.energy.map Prod.fst).Nodup ∧ (m.gas_packets.map Prod.fst).Nodup ∧
  (m.liquid_packets.map Prod.fst).Nodup

instance (m : Map) : Decidable (StoreNodup m) := by
  unfold StoreNodup; infer_instance

/-- Well-formedness of a tile as emitted by `try_save` under `SaveInv`:
present fields are positive / nonempty, capped, replay-stable and
size-bounded. These are exactly the facts `try_load` needs to reproduce
the tile. -/
def WFTile (mos : Nat) (t : TileJson) : Prop :=
  (∀ v, t.energy = some v → 0 < v ∧ v ≤ MAX_STORED_ENERGY) ∧
  (∀ q, t.gas_packets = some q →
    q ≠ [] ∧ replay Phase.Gas q = some q) ∧
  (∀ q, t.liquid_packets = some q →
    q ≠ [] ∧ replay Phase.Liquid q = some q) ∧
  (∀ os, t.objects = some os →
    os ≠ [] ∧ os.length ≤ MAX_STORED_OBJECTS ∧
      ∀ b ∈ os, b.length ≤ mos)

instance (mos : Nat) (t : TileJson) : Decidable (WFTile mos t) := by
  unfold WFTile; infer_instance

/- Proof-layer decomposition of `loadTile` into its four sequential stages
(see `loadTile_eq`). -/

def loadEnergy (pt : Point) (te : Option Nat) (m : Map) : Map :=
  match te with
  | some n => if n ≤ u32max then (m.add_joules pt n).2 else m
  | none => m

def loadQueue (ph : Phase) (pt : Point) (tq : Option (List MatPacket))
    (m : Map) : Map :=
  match tq with
  | some arr =>
    arr.foldl (fun m packet => (m.add_packet pt packet ph).2) m
  | none => m

def loadObjs (mos : Nat) (pt : Point) (tob : Option (List (List Nat)))
    (m : Map) : Map :=
  match tob with
  | some arr =>
    arr.foldl
      (fun m obj =>
        if b64len obj.length > (mos + 2) * 4 / 3 then m
        else if obj.length ≤ mos then (m.add_object pt obj).2 else m) m
  | none => m

/- Association-list lemmas. -/

theorem alookup_aset_self {κ α : Type} [DecidableEq κ] (l : List (κ × α))
    (k : κ) (v : α) : alookup (aset l k v) k = some v := by
  induction l with
  | nil => simp [aset, alookup]
  | cons h t ih =>
    obtain ⟨k', v'⟩ := h
    by_cases hk : k' = k <;> simp [aset, alookup, hk, ih]

theorem alookup_aset_ne {κ α : Type} [DecidableEq κ] (l : List (κ × α))
    (k q : κ) (v : α) (h : q ≠ k) :
    alookup (aset l k v) q = alookup l q := by
  have hkq : ¬ k = q := fun hh => h hh.symm
  induction l with
  | nil =>
    simp only [aset, alookup]
    rw [if_neg hkq]
  | cons hd t ih =>
    obtain ⟨k', v'⟩ := hd
    by_cases hk : k' = k
    · subst hk
      simp only [aset, if_pos rfl, alookup]
      rw [if_neg hkq, if_neg hkq]
    · simp only [aset, if_neg hk, alookup]
      by_cases hq : k' = q
      · rw [if_pos hq, if_pos hq]
      · rw [if_neg hq, if_neg hq, ih]

theorem aset_lookup_self {κ α : Type} [DecidableEq κ] (l : List (κ × α))
    (k : κ) (v : α) (h : alookup l k = some v) : aset l k v = l := by
  induction l with
  | nil => simp [alookup] at h
  | cons hd t ih =>
    obtain ⟨k', v'⟩ := hd
    by_cases hk : k' = k
    · subst hk
      simp only [alookup, eq_self_iff_true, if_true, Option.some.injEq] at h
      simp [aset, h]
    · simp only [alookup] at h
      rw [if_neg hk] at h
      simp [aset, hk, ih h]

theorem alookup_mem {κ α : Type} [DecidableEq κ] (l : List (κ × α))
    (k : κ) (v : α) (h : alookup l k = some v) : (k, v) ∈ l := by
  induction l with
  | nil => simp [alookup] at h
  | cons hd t ih =>
    obtain ⟨k', v'⟩ := hd
    by_cases hk : k' = k
    · subst hk
      simp only [alookup, eq_self_iff_true, if_true, Option.some.injEq] at h
      simp [h]
    · simp only [alookup] at h
      rw [if_neg hk] at h
      exact List.mem_cons_of_mem _ (ih h)

theorem mem_aset {κ α : Type} [DecidableEq κ] (l : List (κ × α))
    (k : κ) (v : α) (x : κ × α) (h : x ∈ aset l k v) :
    x = (k, v) ∨ x ∈ l := by
  induction l with
  | nil => simpa [aset] using h
  | cons hd t ih =>
    obtain ⟨k', v'⟩ := hd
    by_cases hk : k' = k
    · subst hk
      simp only [aset, eq_self_iff_true, if_true, List.mem_cons] at h
      rcases h with h | h
      · exact Or.inl h
      · exact Or.inr (List.mem_cons_of_mem _ h)
    · simp only [aset, if_neg hk, List.mem_cons] at h
      rcases h with h | h
      · exact Or.inr (by simp [h])
      · rcases ih h with h' | h'
        · exact Or.inl h'
        · exact Or.inr (List.mem_cons_of_mem _ h')

theorem mem_aremove {κ α : Type} [DecidableEq κ] (l : List (κ × α))
    (k : κ) (x : κ × α) (h : x ∈ aremove l k) : x ∈ l := by
  induction l with
  | nil => simp [aremove] at h
  | cons hd t ih =>
    obtain ⟨k', v'⟩ := hd
    by_cases hk : k' = k
    · simp only [aremove, if_pos hk] at h
      exact List.mem_cons_of_mem _ h
    · simp only [aremove, if_neg hk, List.mem_cons] at h
      rcases h with h | h
      · simp [h]
      · exact List.mem_cons_of_mem _ (ih h)

theorem alookup_eq_none_iff {κ α : Type} [DecidableEq κ]
    (l : List (κ × α)) (k : κ) :
    alookup l k = none ↔ k ∉ l.map Prod.fst := by
  induction l with
  | nil => simp [alookup]
  | cons hd t ih =>
    obtain ⟨k', v'⟩ := hd
    by_cases hk : k' = k
    · subst hk
      simp [alookup]
    · simp only [alookup, List.map_cons, List.mem_cons]
      rw [if_neg hk, ih]
      constructor
      · intro hnm hor
        rcases hor with hor | hor
        · exact hk hor.symm
        · exact hnm hor
      · intro hnm hmem
        exact hnm (Or.inr hmem)

theorem alookup_aremove_self {κ α : Type} [DecidableEq κ]
    (l : List (κ × α)) (k : κ) (h : (l.map Prod.fst).Nodup) :
    alookup (aremove l k) k = none := by
  rw [alookup_eq_none_iff]
  induction l with
  | nil => simp [aremove]
  | cons hd t ih =>
    obtain ⟨k', v'⟩ := hd
    simp only [List.map_cons, List.nodup_cons] at h
    by_cases hk : k' = k
    · subst hk
      simpa [aremove] using fun hm => h.1 hm
    · simp only [aremove, if_neg hk, List.map_cons, List.mem_cons]
      push_neg
      exact ⟨fun hh => hk hh.symm, ih h.2⟩

/-- C9: merging a 0.6 kg gas packet with an incoming 0.6 kg gas packet of
the same element yields a merged head of mass 1.0 kg whose temperature is
the mass-weighted mean `(a.temp * a.mass + b.temp * buff) / (a.mass +
buff)` with `buff = 0.4`, plus a tail packet of mass 0.2 kg carrying the
incoming packet's temperature. -/
theorem merge_gas_at_cap (e : Int) (ta tb : ℚ) (ga gb : Option Germs) :
    (MatPacket.merge ⟨e, 3/5, ta, ga⟩ ⟨e, 3/5, tb, gb⟩ Phase.Gas).map
        (fun r => (r.1.element, r.1.mass, r.1.temperature,
          r.2.map (fun t => (t.element, t.mass, t.temperature))))
      = some (e, 1, (ta * (3/5) + tb * (2/5)) / (3/5 + 2/5),
              some (e, 1/5, tb)) := by
  have hmin : min ((3 : ℚ)/5) (1 - 3/5) = 2/5 := by norm_num [min_def]
  unfold MatPacket.merge
  norm_num [Phase.get_max_stack_size, hmin]

/-- C10: `Germs::split` conserves the population: with positive count (in
i32 range) and a fraction strictly between 0 and 1, both sides keep the
species id, the head gets at least one germ, the tail is non-negative, and
the two counts sum exactly to the original; `frac >= 1` or `count = 0`
returns `(self, zero)`, and `frac <= 0` returns `(zero, self)`. -/
theorem germs_split_conservation :
    (∀ (g : Germs) (frac : ℚ), 0 < g.count → g.count ≤ 2 ^ 31 - 1 →
      0 < frac → frac < 1 →
      (g.split frac).1.id = g.id ∧ (g.split frac).2.id = g.id ∧
      1 ≤ (g.split frac).1.count ∧ 0 ≤ (g.split frac).2.count ∧
      (g.split frac).1.count + (g.split frac).2.count = g.count) ∧
    (∀ (g : Germs) (frac : ℚ), 1 ≤ frac ∨ g.count = 0 →
      g.split frac = (g, ⟨g.id, 0⟩)) ∧
    (∀ (g : Germs) (frac : ℚ), frac ≤ 0 →
      g.split frac = (⟨g.id, 0⟩, g)) := by
  refine ⟨?_, ?_, ?_⟩
  · intro g frac hc hc31 hf0 hf1
    have hguard : ¬(frac ≥ 1 ∨ g.count = 0) := by
      push_neg
      exact ⟨by linarith, by omega⟩
    have hguard2 : ¬ frac ≤ 0 := by linarith
    have hpos : (0 : ℚ) < (g.count : ℚ) * frac :=
      mul_pos (by exact_mod_cast hc) hf0
    have hz1 : 1 ≤ ⌈(g.count : ℚ) * frac⌉ := Int.ceil_pos.mpr hpos
    have hzc : ⌈(g.count : ℚ) * frac⌉ ≤ g.count := by
      rw [Int.ceil_le]
      nlinarith
    have hsat : sat_i32 ⌈(g.count : ℚ) * frac⌉ = ⌈(g.count : ℚ) * frac⌉ := by
      unfold sat_i32
      rw [min_eq_right (by omega), max_eq_right (by omega)]
    have hmax : max ⌈(g.count : ℚ) * frac⌉ 1 = ⌈(g.count : ℚ) * frac⌉ :=
      max_eq_left hz1
    have hsub : isat_sub g.count ⌈(g.count : ℚ) * frac⌉
        = g.count - ⌈(g.count : ℚ) * frac⌉ := by
      unfold isat_sub
      rw [min_eq_right (by omega), max_eq_right (by omega)]
    simp only [Germs.split, if_neg hguard, if_neg hguard2, hsat, hmax, hsub]
    refine ⟨by trivial, by trivial, by omega, by omega, by omega⟩
  · intro g frac h
    simp only [Germs.split, if_pos h]
  · intro g frac h
    by_cases hc : g.count = 0
    · obtain ⟨gid, gcount⟩ := g
      simp only at hc
      subst hc
      simp [Germs.split]
    · have hguard : ¬(frac ≥ 1 ∨ g.count = 0) := by
        push_neg
        exact ⟨by linarith, hc⟩
      simp only [Germs.split, if_neg hguard, if_pos h]

theorem germs_split_conservation_witness :
    ((0 : Int) < 10 ∧ (10 : Int) ≤ 2 ^ 31 - 1 ∧ (0 : ℚ) < 1/3 ∧
     (1/3 : ℚ) < 1 ∧
     (((⟨5, 10⟩ : Germs).split (1/3)).1.id = 5 ∧
      ((⟨5, 10⟩ : Germs).split (1/3)).2.id = 5 ∧
      1 ≤ ((⟨5, 10⟩ : Germs).split (1/3)).1.count ∧
      0 ≤ ((⟨5, 10⟩ : Germs).split (1/3)).2.count ∧
      ((⟨5, 10⟩ : Germs).split (1/3)).1.count
        + ((⟨5, 10⟩ : Germs).split (1/3)).2.count = 10)) ∧
    ((⟨5, 0⟩ : Germs).split (2/3) = (⟨5, 0⟩, ⟨5, 0⟩)) ∧
    ((⟨5, 10⟩ : Germs).split 0 = (⟨5, 0⟩, ⟨5, 10⟩)) := by
  refine ⟨⟨by norm_num, by norm_num, by norm_num, by norm_num, ?_⟩, ?_, ?_⟩
  · exact germs_split_conservation.1 ⟨5, 10⟩ (1/3) (by norm_num)
      (by norm_num) (by norm_num) (by norm_num)
  · exact germs_split_conservation.2.1 ⟨5, 0⟩ (2/3) (Or.inr rfl)
  · exact germs_split_conservation.2.2 ⟨5, 10⟩ 0 (le_refl 0)

/-- C6 (code-bug evidence): a hello that declares protocol version 0 but a
wrong protocol name is answered with a `handshake_error` message before the
connection is closed, and an unknown compression value likewise draws a
`handshake_error`, even though the version-0 arm of the source records
`may_send_handshake_error = false` (third conjunct) precisely because such
clients crash on that message. -/
theorem handshake_error_sent_to_v0 :
    (inner_client_handshake ⟨true, some none, false, some 0⟩).1
        = [ServerMsg.handshake_error "unknown_protocol"] ∧
    (inner_client_handshake ⟨true, none, true, some 0⟩).1
        = [ServerMsg.handshake_error "compression_type_unknown"] ∧
    inner_client_handshake ⟨true, some none, true, some 0⟩
        = ([], .ok (2, false)) := by
  exact ⟨rfl, rfl, rfl⟩



/-- C5: `add_joules(point, amount)` caps the stored energy at
`MAX_STORED_ENERGY` (the sum `e + amount` is computed exactly, in ℕ here /
u64 in the source), returns the over-cap remainder, always leaves an entry
for the point, and at `e = MAX_STORED_ENERGY` returns `amount` with the map
unchanged. -/
theorem add_joules_spec (m : Map) (p : Point) (amt : Nat)
    (hamt : amt < 2 ^ 32)
    (hinv : ∀ v, alookup m.energy p = some v → v ≤ MAX_STORED_ENERGY) :
    (m.add_joules p amt).1
        = (alookup m.energy p).getD 0 + amt
          - min ((alookup m.energy p).getD 0 + amt) MAX_STORED_ENERGY ∧
    alookup (m.add_joules p amt).2.energy p
        = some (min ((alookup m.energy p).getD 0 + amt) MAX_STORED_ENERGY) ∧
    ((alookup m.energy p).getD 0 = MAX_STORED_ENERGY →
      (m.add_joules p amt).2 = m ∧ (m.add_joules p amt).1 = amt) := by
  have he : (alookup m.energy p).getD 0 ≤ MAX_STORED_ENERGY := by
    cases hl : alookup m.energy p with
    | none => simp [MAX_STORED_ENERGY]
    | some v =>
      simpa using hinv v hl
  refine ⟨?_, ?_, ?_⟩
  · simp only [Map.add_joules]
    rw [min_comm MAX_STORED_ENERGY]
    apply Nat.mod_eq_of_lt
    have : (alookup m.energy p).getD 0 + amt
        - min ((alookup m.energy p).getD 0 + amt) MAX_STORED_ENERGY ≤ amt := by
      rcases min_cases ((alookup m.energy p).getD 0 + amt) MAX_STORED_ENERGY
        with ⟨hmin, _⟩ | ⟨hmin, _⟩ <;> omega
    omega
  · simp only [Map.add_joules]
    rw [alookup_aset_self, min_comm MAX_STORED_ENERGY]
  · intro hmax
    have hl : alookup m.energy p = some MAX_STORED_ENERGY := by
      cases hl : alookup m.energy p with
      | none => rw [hl] at hmax; simp [MAX_STORED_ENERGY] at hmax
      | some v => rw [hl] at hmax; simp at hmax; rw [hmax]
    have hcap : min MAX_STORED_ENERGY ((alookup m.energy p).getD 0 + amt)
        = MAX_STORED_ENERGY := by
      rw [hl]
      simp
    constructor
    · simp only [Map.add_joules, hcap]
      rw [aset_lookup_self m.energy p MAX_STORED_ENERGY hl]
    · simp only [Map.add_joules, hcap, hl]
      simpa using Nat.mod_eq_of_lt hamt

/-- Witness for `add_joules_spec` at a map holding exactly the energy cap. -/
theorem add_joules_spec_witness :
    (7 : Nat) < 2 ^ 32 ∧
    (∀ v, alookup (Map.mk [(⟨1, 2, 0⟩, 10000)] [] [] [] []).energy ⟨1, 2, 0⟩
        = some v → v ≤ MAX_STORED_ENERGY) ∧
    ((Map.mk [(⟨1, 2, 0⟩, 10000)] [] [] [] []).add_joules ⟨1, 2, 0⟩ 7).1
        = (alookup (Map.mk [(⟨1, 2, 0⟩, 10000)] [] [] [] []).energy
            ⟨1, 2, 0⟩).getD 0 + 7
          - min ((alookup (Map.mk [(⟨1, 2, 0⟩, 10000)] [] [] [] []).energy
            ⟨1, 2, 0⟩).getD 0 + 7) MAX_STORED_ENERGY ∧
    alookup ((Map.mk [(⟨1, 2, 0⟩, 10000)] [] [] [] []).add_joules
        ⟨1, 2, 0⟩ 7).2.energy ⟨1, 2, 0⟩
        = some (min ((alookup (Map.mk [(⟨1, 2, 0⟩, 10000)] [] [] [] []).energy
            ⟨1, 2, 0⟩).getD 0 + 7) MAX_STORED_ENERGY) ∧
    ((alookup (Map.mk [(⟨1, 2, 0⟩, 10000)] [] [] [] []).energy
        ⟨1, 2, 0⟩).getD 0 = MAX_STORED_ENERGY →
      ((Map.mk [(⟨1, 2, 0⟩, 10000)] [] [] [] []).add_joules ⟨1, 2, 0⟩ 7).2
          = Map.mk [(⟨1, 2, 0⟩, 10000)] [] [] [] [] ∧
      ((Map.mk [(⟨1, 2, 0⟩, 10000)] [] [] [] []).add_joules ⟨1, 2, 0⟩ 7).1
          = 7) := by
  refine ⟨by norm_num, by decide, ?_⟩
  exact add_joules_spec (Map.mk [(⟨1, 2, 0⟩, 10000)] [] [] [] []) ⟨1, 2, 0⟩ 7
    (by norm_num) (by decide)





theorem runOps_conservation (p : Point) (ops : List EnergyOp) :
    ∀ (m : Map), (∀ op ∈ ops, op.amt < 2 ^ 32) →
    ∀ e0, (alookup m.energy p).getD 0 = e0 → e0 ≤ MAX_STORED_ENERGY →
    (alookup (runOps p ops m).1.energy p).getD 0 ≤ MAX_STORED_ENERGY ∧
    (alookup (runOps p ops m).1.energy p).getD 0
      + (runOps p ops m).2.1 + (runOps p ops m).2.2 = e0 + sumAdds ops := by
  induction ops with
  | nil =>
    intro m _ e0 he0 hle
    simp [runOps, sumAdds, he0, hle]
  | cons op rest ih =>
    intro m hops e0 he0 hle
    have hrest : ∀ op ∈ rest, op.amt < 2 ^ 32 :=
      fun o ho => hops o (List.mem_cons_of_mem _ ho)
    cases op with
    | add a =>
      have ha : a < 2 ^ 32 := by
        have := hops (.add a) (List.mem_cons_self _ _)
        simpa [EnergyOp.amt] using this
      have hlook : alookup (m.add_joules p a).2.energy p
          = some (min MAX_STORED_ENERGY (e0 + a)) := by
        simp only [Map.add_joules, he0]
        exact alookup_aset_self _ _ _
      have hspare : (m.add_joules p a).1
          = e0 + a - min MAX_STORED_ENERGY (e0 + a) := by
        simp only [Map.add_joules, he0]
        apply Nat.mod_eq_of_lt
        rcases min_cases MAX_STORED_ENERGY (e0 + a)
          with ⟨hmin, _⟩ | ⟨hmin, _⟩ <;> omega
      have hmin : min MAX_STORED_ENERGY (e0 + a) ≤ MAX_STORED_ENERGY :=
        min_le_left _ _
      obtain ⟨ih1, ih2⟩ := ih (m.add_joules p a).2 hrest
        (min MAX_STORED_ENERGY (e0 + a)) (by rw [hlook]; rfl) hmin
      simp only [runOps, sumAdds]
      refine ⟨ih1, ?_⟩
      rcases min_cases MAX_STORED_ENERGY (e0 + a)
        with ⟨hm, _⟩ | ⟨hm, _⟩ <;> omega
    | sub a =>
      cases hl : alookup m.energy p with
      | none =>
        have hsub : m.sub_joules p a = (0, m) := by
          simp [Map.sub_joules, hl]
        obtain ⟨ih1, ih2⟩ := ih m hrest e0 he0 hle
        simp only [runOps, sumAdds, hsub]
        exact ⟨ih1, by omega⟩
      | some v =>
        have hv : v = e0 := by
          rw [hl] at he0
          simpa using he0
        subst hv
        have hlook : alookup (m.sub_joules p a).2.energy p = some (v - a) := by
          simp only [Map.sub_joules, hl]
          exact alookup_aset_self _ _ _
        have htaken : (m.sub_joules p a).1 = min v a := by
          simp [Map.sub_joules, hl]
        obtain ⟨ih1, ih2⟩ := ih (m.sub_joules p a).2 hrest (v - a)
          (by rw [hlook]; rfl) (by omega)
        simp only [runOps, sumAdds]
        refine ⟨ih1, ?_⟩
        rw [htaken] at *
        rcases min_cases v a with ⟨hm, _⟩ | ⟨hm, _⟩ <;> omega

/-- C4 (amended): running any finite sequence of `add_joules` / `sub_joules`
calls at a point with no prior energy entry keeps the stored energy within
`[0, MAX_STORED_ENERGY]` and satisfies the conservation law `stored +
Σ spares + Σ taken = Σ adds` — equivalently the claim's second half,
`Σ spares + stored = Σ adds − Σ taken`. The claim's closed form
`max(0, min(MAX_STORED_ENERGY, Σ adds − Σ taken))` for the stored energy
does not hold (see the counterexample). -/
theorem energy_sequence_conservation (p : Point) (ops : List EnergyOp)
    (m : Map) (hops : ∀ op ∈ ops, op.amt < 2 ^ 32)
    (hstart : alookup m.energy p = none) :
    (alookup (runOps p ops m).1.energy p).getD 0 ≤ MAX_STORED_ENERGY ∧
    (alookup (runOps p ops m).1.energy p).getD 0
      + (runOps p ops m).2.1 + (runOps p ops m).2.2 = sumAdds ops := by
  have h := runOps_conservation p ops m hops 0 (by rw [hstart]; rfl)
    (by norm_num [MAX_STORED_ENERGY])
  simpa using h

/-- C4 counterexample: `add_joules 15000` then `sub_joules 10000` at a fresh
point stores 0 J, while the claimed closed form `max(0, min(MAX, Σ adds −
Σ taken))` evaluates to 5000 J. -/
theorem energy_closed_form_fails :
    (alookup (runOps ⟨0, 0, 0⟩ [.add 15000, .sub 10000] Map.new).1.energy
        ⟨0, 0, 0⟩).getD 0 = 0 ∧
    (runOps ⟨0, 0, 0⟩ [.add 15000, .sub 10000] Map.new).2.2 = 10000 ∧
    sumAdds [.add 15000, .sub 10000] = 15000 ∧
    max 0 (min (MAX_STORED_ENERGY : Int) ((15000 : Int) - 10000)) = 5000 := by
  refine ⟨by decide, by decide, by decide, by decide⟩

/-- Witness for `energy_sequence_conservation` on the two-call sequence of
the counterexample. -/
theorem energy_sequence_conservation_witness :
    (∀ op ∈ [EnergyOp.add 15000, EnergyOp.sub 10000], op.amt < 2 ^ 32) ∧
    alookup Map.new.energy ⟨0, 0, 0⟩ = none ∧
    ((alookup (runOps ⟨0, 0, 0⟩ [.add 15000, .sub 10000] Map.new).1.energy
        ⟨0, 0, 0⟩).getD 0 ≤ MAX_STORED_ENERGY ∧
     (alookup (runOps ⟨0, 0, 0⟩ [.add 15000, .sub 10000] Map.new).1.energy
        ⟨0, 0, 0⟩).getD 0
       + (runOps ⟨0, 0, 0⟩ [.add 15000, .sub 10000] Map.new).2.1
       + (runOps ⟨0, 0, 0⟩ [.add 15000, .sub 10000] Map.new).2.2
       = sumAdds [.add 15000, .sub 10000]) := by
  refine ⟨by decide, by decide, ?_⟩
  exact energy_sequence_conservation ⟨0, 0, 0⟩
    [.add 15000, .sub 10000] Map.new (by decide) (by decide)





theorem qmass_nil : qmass [] = 0 := rfl

theorem qmass_cons (a : MatPacket) (l : List MatPacket) :
    qmass (a :: l) = a.mass + qmass l := by
  simp [qmass]

theorem qmass_append (l1 l2 : List MatPacket) :
    qmass (l1 ++ l2) = qmass l1 + qmass l2 := by
  simp [qmass]

theorem merge_mass (a b : MatPacket) (phase : Phase) (h t : MatPacket)
    (hm : MatPacket.merge a b phase = some (h, some t)) :
    h.mass + t.mass = a.mass + b.mass := by
  simp only [MatPacket.merge] at hm
  split at hm
  · exact absurd hm (by simp)
  · split at hm
    · exact absurd hm (by simp)
    · simp only [Option.some.injEq, Prod.mk.injEq] at hm
      obtain ⟨hh, ht⟩ := hm
      split at ht
      · simp only [Option.some.injEq] at ht
        rw [← hh, ← ht]
        simp only
        ring
      · exact absurd ht (by simp)

theorem merge_mass_none (a b : MatPacket) (phase : Phase) (h : MatPacket)
    (hm : MatPacket.merge a b phase = some (h, none)) :
    h.mass = a.mass + b.mass := by
  simp only [MatPacket.merge] at hm
  split at hm
  · exact absurd hm (by simp)
  · split at hm
    · exact absurd hm (by simp)
    · simp only [Option.some.injEq, Prod.mk.injEq] at hm
      obtain ⟨hh, ht⟩ := hm
      split at ht
      next hleft => exact absurd ht (by simp)
      next hleft =>
        push_neg at hleft
        have hle : min b.mass (phase.get_max_stack_size - a.mass) ≤ b.mass :=
          min_le_left _ _
        have hbuff : min b.mass (phase.get_max_stack_size - a.mass)
            = b.mass := by linarith
        rw [← hh]
        simp only [hbuff]

/-- Case analysis of the `add_packet` queue walk: it either rejects and
returns the queue unchanged, or accepts and the queue's total mass grows by
exactly the incoming packet's mass. -/
theorem add_packet_vec_spec (pkt : MatPacket) (phase : Phase) (len : Nat)
    (q : List MatPacket) :
    ((add_packet_vec pkt phase len q).1 = false ∧
     (add_packet_vec pkt phase len q).2 = q) ∨
    ((add_packet_vec pkt phase len q).1 = true ∧
     qmass (add_packet_vec pkt phase len q).2 = qmass q + pkt.mass) := by
  induction q with
  | nil =>
    by_cases hlen : len ≥ MAX_STORED_PACKETS
    · left
      simp [add_packet_vec, hlen]
    · right
      simp [add_packet_vec, hlen, qmass_cons, qmass_nil]
  | cons el rest ih =>
    by_cases hroom : el.has_room phase
    · cases hmerge : el.merge pkt phase with
      | none =>
        rcases ih with ⟨h1, h2⟩ | ⟨h1, h2⟩
        · left
          simp [add_packet_vec, hroom, hmerge, h1, h2]
        · right
          refine ⟨by simp [add_packet_vec, hroom, hmerge, h1], ?_⟩
          have hq : (add_packet_vec pkt phase len (el :: rest)).2
              = el :: (add_packet_vec pkt phase len rest).2 := by
            simp [add_packet_vec, hroom, hmerge]
          simp only [hq, qmass_cons, h2]
          ring
      | some pr =>
        obtain ⟨merged, tail⟩ := pr
        cases tail with
        | none =>
          right
          have hmass := merge_mass_none el pkt phase merged hmerge
          refine ⟨by simp [add_packet_vec, hroom, hmerge], ?_⟩
          have hq : (add_packet_vec pkt phase len (el :: rest)).2
              = merged :: rest := by
            simp [add_packet_vec, hroom, hmerge]
          simp only [hq, qmass_cons, hmass]
          ring
        | some spare =>
          by_cases hlen : len ≥ MAX_STORED_PACKETS
          · left
            simp [add_packet_vec, hroom, hmerge, hlen]
          · right
            have hmass := merge_mass el pkt phase merged spare hmerge
            refine ⟨by simp [add_packet_vec, hroom, hmerge, hlen], ?_⟩
            have hq : (add_packet_vec pkt phase len (el :: rest)).2
                = merged :: (rest ++ [spare]) := by
              simp [add_packet_vec, hroom, hmerge, hlen]
            simp only [hq, qmass_cons, qmass_append, qmass_nil]
            linarith
    · rcases ih with ⟨h1, h2⟩ | ⟨h1, h2⟩
      · left
        simp [add_packet_vec, hroom, h1, h2]
      · right
        refine ⟨by simp [add_packet_vec, hroom, h1], ?_⟩
        have hq : (add_packet_vec pkt phase len (el :: rest)).2
            = el :: (add_packet_vec pkt phase len rest).2 := by
          simp [add_packet_vec, hroom]
        simp only [hq, qmass_cons, h2]
        ring




/-- C1: `add_packet` is atomic: at every point, packet (of positive mass)
and phase, a `false` result leaves the map — in particular the selected
queue — completely unchanged, and the result is `true` exactly when the
packet's whole mass was absorbed into the selected queue. -/
theorem add_packet_atomic (m : Map) (p : Point) (pkt : MatPacket)
    (phase : Phase) (hmass : 0 < pkt.mass) :
    ((m.add_packet p pkt phase).1 = false → (m.add_packet p pkt phase).2 = m) ∧
    ((m.add_packet p pkt phase).1 = true ↔
      queueMass (m.add_packet p pkt phase).2 p phase
        = queueMass m p phase + pkt.mass) := by
  cases phase
  case Gas =>
    cases hl : alookup m.gas_packets p with
    | none =>
      constructor
      · intro h
        simp [Map.add_packet, hl] at h
      · constructor
        · intro _
          simp only [Map.add_packet, hl, queueMass, Map.phase_store,
            alookup_aset_self]
          simp [qmass_cons, qmass_nil]
        · intro _
          simp [Map.add_packet, hl]
    | some vec =>
      rcases add_packet_vec_spec pkt Phase.Gas vec.length vec
        with ⟨h1, h2⟩ | ⟨h1, h2⟩
      · have hback : aset m.gas_packets p
            (add_packet_vec pkt Phase.Gas vec.length vec).2
            = m.gas_packets := by
          rw [h2]
          exact aset_lookup_self _ _ _ hl
        constructor
        · intro _
          simp only [Map.add_packet, hl, hback]
        · constructor
          · intro htrue
            simp only [Map.add_packet, hl, h1] at htrue
            simp at htrue
          · intro hq
            exfalso
            simp only [Map.add_packet, hl, queueMass, Map.phase_store,
              hback, Option.getD_some] at hq
            linarith
      · constructor
        · intro h
          simp only [Map.add_packet, hl, h1] at h
          simp at h
        · constructor
          · intro _
            simp only [Map.add_packet, hl, queueMass, Map.phase_store,
              alookup_aset_self]
            simpa using h2
          · intro _
            simp [Map.add_packet, hl, h1]
  case Liquid =>
    cases hl : alookup m.liquid_packets p with
    | none =>
      constructor
      · intro h
        simp [Map.add_packet, hl] at h
      · constructor
        · intro _
          simp only [Map.add_packet, hl, queueMass, Map.phase_store,
            alookup_aset_self]
          simp [qmass_cons, qmass_nil]
        · intro _
          simp [Map.add_packet, hl]
    | some vec =>
      rcases add_packet_vec_spec pkt Phase.Liquid vec.length vec
        with ⟨h1, h2⟩ | ⟨h1, h2⟩
      · have hback : aset m.liquid_packets p
            (add_packet_vec pkt Phase.Liquid vec.length vec).2
            = m.liquid_packets := by
          rw [h2]
          exact aset_lookup_self _ _ _ hl
        constructor
        · intro _
          simp only [Map.add_packet, hl, hback]
        · constructor
          · intro htrue
            simp only [Map.add_packet, hl, h1] at htrue
            simp at htrue
          · intro hq
            exfalso
            simp only [Map.add_packet, hl, queueMass, Map.phase_store,
              hback, Option.getD_some] at hq
            linarith
      · constructor
        · intro h
          simp only [Map.add_packet, hl, h1] at h
          simp at h
        · constructor
          · intro _
            simp only [Map.add_packet, hl, queueMass, Map.phase_store,
              alookup_aset_self]
            simpa using h2
          · intro _
            simp [Map.add_packet, hl, h1]





/-- Witness for `add_packet_atomic` on a fresh map and a half-kilogram gas
packet. -/
theorem add_packet_atomic_witness :
    (0 : ℚ) < (⟨100, 1/2, 300, none⟩ : MatPacket).mass ∧
    (((Map.new.add_packet ⟨0, 0, 0⟩ ⟨100, 1/2, 300, none⟩ Phase.Gas).1
        = false →
      (Map.new.add_packet ⟨0, 0, 0⟩ ⟨100, 1/2, 300, none⟩ Phase.Gas).2
        = Map.new) ∧
     ((Map.new.add_packet ⟨0, 0, 0⟩ ⟨100, 1/2, 300, none⟩ Phase.Gas).1
        = true ↔
      queueMass (Map.new.add_packet ⟨0, 0, 0⟩ ⟨100, 1/2, 300, none⟩
          Phase.Gas).2 ⟨0, 0, 0⟩ Phase.Gas
        = queueMass Map.new ⟨0, 0, 0⟩ Phase.Gas
          + (⟨100, 1/2, 300, none⟩ : MatPacket).mass)) :=
  ⟨by norm_num,
   add_packet_atomic Map.new ⟨0, 0, 0⟩ ⟨100, 1/2, 300, none⟩ Phase.Gas
     (by norm_num)⟩

/- Counting and length lemmas for the capacity invariants. -/

theorem countMatching_go (c : ClientID) (l : List (ClientID × String)) :
    ∀ n : Nat, l.foldl (fun a e => if e.1 = c then a + 1 else a) n
      = n + l.foldl (fun a e => if e.1 = c then a + 1 else a) 0 := by
  induction l with
  | nil => intro n; simp
  | cons e t ih =>
    intro n
    simp only [List.foldl_cons]
    rw [ih (if e.1 = c then n + 1 else n), ih (if e.1 = c then 0 + 1 else 0)]
    by_cases he : e.1 = c
    · rw [if_pos he, if_pos he]
      omega
    · rw [if_neg he, if_neg he]
      omega

theorem countMatching_cons (c : ClientID) (e : ClientID × String)
    (l : List (ClientID × String)) :
    countMatching (e :: l) c
      = (if e.1 = c then 1 else 0) + countMatching l c := by
  simp only [countMatching, List.foldl_cons]
  rw [countMatching_go]

theorem countMatching_append_one (c c' : ClientID) (w : String)
    (l : List (ClientID × String)) :
    countMatching (l ++ [(c', w)]) c
      = countMatching l c + (if c' = c then 1 else 0) := by
  simp only [countMatching, List.foldl_append, List.foldl_cons,
    List.foldl_nil]
  by_cases he : c' = c <;> simp [he]

theorem countMatching_filter_le (c : ClientID)
    (pred : ClientID × String → Bool) (l : List (ClientID × String)) :
    countMatching (l.filter pred) c ≤ countMatching l c := by
  induction l with
  | nil => simp [countMatching]
  | cons e t ih =>
    by_cases hp : pred e
    · rw [List.filter_cons_of_pos hp, countMatching_cons,
        countMatching_cons]
      omega
    · rw [List.filter_cons_of_neg hp, countMatching_cons]
      omega

/-- Queue length after the `add_packet` walk: unchanged, or one longer and
then only when the pre-walk length was below the cap. -/
theorem add_packet_vec_length (pkt : MatPacket) (phase : Phase) (len : Nat)
    (q : List MatPacket) :
    (add_packet_vec pkt phase len q).2.length = q.length ∨
    ((add_packet_vec pkt phase len q).2.length = q.length + 1 ∧
      len < MAX_STORED_PACKETS) := by
  induction q with
  | nil =>
    by_cases hlen : len ≥ MAX_STORED_PACKETS
    · left
      simp [add_packet_vec, hlen]
    · right
      constructor
      · simp [add_packet_vec, hlen]
      · omega
  | cons el rest ih =>
    by_cases hroom : el.has_room phase
    · cases hmerge : el.merge pkt phase with
      | none =>
        have hq : (add_packet_vec pkt phase len (el :: rest)).2
            = el :: (add_packet_vec pkt phase len rest).2 := by
          simp [add_packet_vec, hroom, hmerge]
        rcases ih with h | ⟨h, hlen⟩
        · left
          simp [hq, h]
        · right
          exact ⟨by simp [hq, h], hlen⟩
      | some pr =>
        obtain ⟨merged, tail⟩ := pr
        cases tail with
        | none =>
          left
          have hq : (add_packet_vec pkt phase len (el :: rest)).2
              = merged :: rest := by
            simp [add_packet_vec, hroom, hmerge]
          simp [hq]
        | some spare =>
          by_cases hlen : len ≥ MAX_STORED_PACKETS
          · left
            have hq : (add_packet_vec pkt phase len (el :: rest)).2
                = el :: rest := by
              simp [add_packet_vec, hroom, hmerge, hlen]
            simp [hq]
          · right
            have hq : (add_packet_vec pkt phase len (el :: rest)).2
                = merged :: (rest ++ [spare]) := by
              simp [add_packet_vec, hroom, hmerge, hlen]
            constructor
            · simp [hq]
            · omega
    · have hq : (add_packet_vec pkt phase len (el :: rest)).2
          = el :: (add_packet_vec pkt phase len rest).2 := by
        simp [add_packet_vec, hroom]
      rcases ih with h | ⟨h, hlen⟩
      · left
        simp [hq, h]
      · right
        exact ⟨by simp [hq, h], hlen⟩





theorem BoundedL_prune (m : Map) (loc : Point) (h : BoundedL m) :
    BoundedL (m.prune loc) := by
  have step1 : ∀ mm : Map, BoundedL mm →
      BoundedL (match alookup mm.energy loc with
        | none => mm
        | some v =>
          if v = 0 then { mm with energy := aremove mm.energy loc }
          else mm) := by
    intro mm hmm
    cases alookup mm.energy loc with
    | none => exact hmm
    | some v =>
      by_cases hv : v = 0
      · simp only [if_pos hv]
        exact hmm
      · simp only [if_neg hv]
        exact hmm
  have step2 : ∀ mm : Map, BoundedL mm →
      BoundedL (match alookup mm.gas_packets loc with
        | none => mm
        | some vec =>
          if vec.isEmpty then
            { mm with gas_packets := aremove mm.gas_packets loc }
          else mm) := by
    intro mm hmm
    obtain ⟨hg, hl, ho, hr⟩ := hmm
    cases alookup mm.gas_packets loc with
    | none => exact ⟨hg, hl, ho, hr⟩
    | some vec =>
      by_cases hv : vec.isEmpty
      · simp only [if_pos hv]
        exact ⟨fun kv hkv => hg kv (mem_aremove _ _ _ hkv), hl, ho, hr⟩
      · simp only [if_neg hv]
        exact ⟨hg, hl, ho, hr⟩
  have step3 : ∀ mm : Map, BoundedL mm →
      BoundedL (match alookup mm.liquid_packets loc with
        | none => mm
        | some vec =>
          if vec.isEmpty then
            { mm with liquid_packets := aremove mm.liquid_packets loc }
          else mm) := by
    intro mm hmm
    obtain ⟨hg, hl, ho, hr⟩ := hmm
    cases alookup mm.liquid_packets loc with
    | none => exact ⟨hg, hl, ho, hr⟩
    | some vec =>
      by_cases hv : vec.isEmpty
      · simp only [if_pos hv]
        exact ⟨hg, fun kv hkv => hl kv (mem_aremove _ _ _ hkv), ho, hr⟩
      · simp only [if_neg hv]
        exact ⟨hg, hl, ho, hr⟩
  exact step3 _ (step2 _ (step1 _ h))

theorem BoundedL_foldl_prune (ps : List Point) :
    ∀ m : Map, BoundedL m → BoundedL (ps.foldl Map.prune m) := by
  induction ps with
  | nil => intro m h; exact h
  | cons p rest ih =>
    intro m h
    exact ih _ (BoundedL_prune m p h)

/-- C2: the capacity bounds are invariants: starting from a map satisfying
them, every map operation — energy add/sub, packet add/pop, object add/pop,
register, unregister (single and all), prune and clear — yields a map
satisfying them again. -/
theorem map_capacity_invariants (m : Map) (h : BoundedL m) :
    (∀ p amt, BoundedL (m.add_joules p amt).2) ∧
    (∀ p amt, BoundedL (m.sub_joules p amt).2) ∧
    (∀ p pkt phase, BoundedL (m.add_packet p pkt phase).2) ∧
    (∀ p phase, BoundedL (m.pop_packet p phase).2) ∧
    (∀ p c w, BoundedL (m.register p c w).2) ∧
    (∀ p c w, BoundedL (m.unregister p c w)) ∧
    (∀ c, BoundedL (m.unregister_all c)) ∧
    (∀ p o, BoundedL (m.add_object p o).2) ∧
    (∀ p, BoundedL (m.pop_object p).2) ∧
    (∀ p, BoundedL (m.prune p)) ∧
    BoundedL m.clear := by
  obtain ⟨hg, hl, ho, hr⟩ := h
  refine ⟨?_, ?_, ?_, ?_, ?_, ?_, ?_, ?_, ?_, ?_, ?_⟩
  · intro p amt
    exact ⟨hg, hl, ho, hr⟩
  · intro p amt
    cases hlk : alookup m.energy p with
    | none =>
      simp only [Map.sub_joules, hlk]
      exact ⟨hg, hl, ho, hr⟩
    | some v =>
      simp only [Map.sub_joules, hlk]
      exact ⟨hg, hl, ho, hr⟩
  · intro p pkt phase
    cases phase
    case Gas =>
      cases hlk : alookup m.gas_packets p with
      | none =>
        simp only [Map.add_packet, hlk]
        refine ⟨fun kv hkv => ?_, hl, ho, hr⟩
        rcases mem_aset _ _ _ _ hkv with he | he
        · rw [he]
          simp [MAX_STORED_PACKETS]
        · exact hg kv he
      | some vec =>
        simp only [Map.add_packet, hlk]
        refine ⟨fun kv hkv => ?_, hl, ho, hr⟩
        rcases mem_aset _ _ _ _ hkv with he | he
        · have hvlen : vec.length ≤ MAX_STORED_PACKETS :=
            hg (p, vec) (alookup_mem _ _ _ hlk)
          rcases add_packet_vec_length pkt Phase.Gas vec.length vec
            with hle | ⟨hle, hlt⟩ <;> rw [he] <;> simp only <;> omega
        · exact hg kv he
    case Liquid =>
      cases hlk : alookup m.liquid_packets p with
      | none =>
        simp only [Map.add_packet, hlk]
        refine ⟨hg, fun kv hkv => ?_, ho, hr⟩
        rcases mem_aset _ _ _ _ hkv with he | he
        · rw [he]
          simp [MAX_STORED_PACKETS]
        · exact hl kv he
      | some vec =>
        simp only [Map.add_packet, hlk]
        refine ⟨hg, fun kv hkv => ?_, ho, hr⟩
        rcases mem_aset _ _ _ _ hkv with he | he
        · have hvlen : vec.length ≤ MAX_STORED_PACKETS :=
            hl (p, vec) (alookup_mem _ _ _ hlk)
          rcases add_packet_vec_length pkt Phase.Liquid vec.length vec
            with hle | ⟨hle, hlt⟩ <;> rw [he] <;> simp only <;> omega
        · exact hl kv he
  · intro p phase
    cases phase
    case Gas =>
      cases hlk : alookup m.gas_packets p with
      | none =>
        simp only [Map.pop_packet, hlk]
        exact ⟨hg, hl, ho, hr⟩
      | some vec =>
        cases vec with
        | nil =>
          simp only [Map.pop_packet, hlk]
          exact ⟨hg, hl, ho, hr⟩
        | cons hd tl =>
          simp only [Map.pop_packet, hlk]
          refine ⟨fun kv hkv => ?_, hl, ho, hr⟩
          rcases mem_aset _ _ _ _ hkv with he | he
          · have hvlen : (hd :: tl).length ≤ MAX_STORED_PACKETS :=
              hg (p, hd :: tl) (alookup_mem _ _ _ hlk)
            rw [he]
            simp only [List.length_cons] at hvlen ⊢
            omega
          · exact hg kv he
    case Liquid =>
      cases hlk : alookup m.liquid_packets p with
      | none =>
        simp only [Map.pop_packet, hlk]
        exact ⟨hg, hl, ho, hr⟩
      | some vec =>
        cases vec with
        | nil =>
          simp only [Map.pop_packet, hlk]
          exact ⟨hg, hl, ho, hr⟩
        | cons hd tl =>
          simp only [Map.pop_packet, hlk]
          refine ⟨hg, fun kv hkv => ?_, ho, hr⟩
          rcases mem_aset _ _ _ _ hkv with he | he
          · have hvlen : (hd :: tl).length ≤ MAX_STORED_PACKETS :=
              hl (p, hd :: tl) (alookup_mem _ _ _ hlk)
            rw [he]
            simp only [List.length_cons] at hvlen ⊢
            omega
          · exact hl kv he
  · intro p c w
    by_cases hcnt : countMatching ((alookup m.registrations p).getD []) c
        ≥ MAX_REGISTRATIONS
    · simp only [Map.register, if_pos hcnt]
      exact ⟨hg, hl, ho, hr⟩
    · simp only [Map.register, if_neg hcnt]
      refine ⟨hg, hl, ho, fun kv hkv => ?_⟩
      rcases mem_aset _ _ _ _ hkv with he | he
      · subst he
        cases hlk : alookup m.registrations p with
        | none =>
          intro e hemem
          have hemem2 : e ∈ [(c, w)] := hemem
          rcases List.mem_singleton.mp hemem2 with rfl
          have key : countMatching [(c, w)] c ≤ MAX_REGISTRATIONS := by
            simp [countMatching, MAX_REGISTRATIONS]
          exact key
        | some vec =>
          intro e hemem
          have hemem2 : e ∈ vec ++ [(c, w)] := hemem
          rw [hlk] at hcnt
          simp only [Option.getD_some] at hcnt
          have hcnt2 : countMatching vec c < MAX_REGISTRATIONS :=
            Nat.lt_of_not_le hcnt
          have hvec : ∀ x ∈ vec, countMatching vec x.1 ≤ MAX_REGISTRATIONS :=
            hr (p, vec) (alookup_mem _ _ _ hlk)
          have key : countMatching (vec ++ [(c, w)]) e.1
              ≤ MAX_REGISTRATIONS := by
            rw [countMatching_append_one]
            by_cases hec : e.1 = c
            · rw [if_pos hec.symm, hec]
              omega
            · rw [if_neg (fun hh => hec hh.symm)]
              rcases List.mem_append.mp hemem2 with hin | hin
              · have := hvec e hin
                omega
              · rcases List.mem_singleton.mp hin with rfl
                simp at hec
          exact key
      · exact hr kv he
  · intro p c w
    cases hlk : alookup m.registrations p with
    | none =>
      simp only [Map.unregister, hlk]
      exact BoundedL_prune m p ⟨hg, hl, ho, hr⟩
    | some vec =>
      by_cases hemp : (vec.filter
          (fun e => ¬(e.1 = c ∧ e.2 = w) : ClientID × String → Prop)).isEmpty
      · simp only [Map.unregister, hlk, hemp, if_true]
        apply BoundedL_prune
        exact ⟨hg, hl, ho, fun kv hkv => hr kv (mem_aremove _ _ _ hkv)⟩
      · simp only [Map.unregister, hlk, hemp, if_false]
        refine ⟨hg, hl, ho, fun kv hkv => ?_⟩
        rcases mem_aset _ _ _ _ hkv with he | he
        · subst he
          intro e hemem
          have hsub : e ∈ vec := List.mem_of_mem_filter hemem
          have hvec : ∀ e ∈ vec, countMatching vec e.1 ≤ MAX_REGISTRATIONS :=
            hr (p, vec) (alookup_mem _ _ _ hlk)
          exact le_trans (countMatching_filter_le _ _ _) (hvec e hsub)
        · exact hr kv he
  · intro c
    apply BoundedL_foldl_prune
    refine ⟨hg, hl, ho, fun kv hkv => ?_⟩
    rcases List.mem_filter.mp hkv with ⟨hmem, _⟩
    rcases List.mem_map.mp hmem with ⟨orig, horig, heq⟩
    intro e hemem
    rw [← heq] at hemem
    simp only at hemem
    have hsub : e ∈ orig.2 := List.mem_of_mem_filter hemem
    have hvec : ∀ e ∈ orig.2, countMatching orig.2 e.1 ≤ MAX_REGISTRATIONS :=
      hr orig horig
    rw [← heq]
    simp only
    exact le_trans (countMatching_filter_le _ _ _) (hvec e hsub)
  · intro p o
    cases hlk : alookup m.objects p with
    | none =>
      simp only [Map.add_object, hlk]
      refine ⟨hg, hl, fun kv hkv => ?_, hr⟩
      rcases mem_aset _ _ _ _ hkv with he | he
      · rw [he]
        simp [MAX_STORED_OBJECTS]
      · exact ho kv he
    | some vec =>
      by_cases hfull : vec.length ≥ MAX_STORED_OBJECTS
      · simp only [Map.add_object, hlk, if_pos hfull]
        exact ⟨hg, hl, ho, hr⟩
      · simp only [Map.add_object, hlk, if_neg hfull]
        refine ⟨hg, hl, fun kv hkv => ?_, hr⟩
        rcases mem_aset _ _ _ _ hkv with he | he
        · rw [he]
          simp only [List.length_append, List.length_cons, List.length_nil]
          omega
        · exact ho kv he
  · intro p
    cases hlk : alookup m.objects p with
    | none =>
      simp only [Map.pop_object, hlk]
      exact ⟨hg, hl, ho, hr⟩
    | some vec =>
      cases vec with
      | nil =>
        simp only [Map.pop_object, hlk]
        exact ⟨hg, hl, ho, hr⟩
      | cons hd tl =>
        simp only [Map.pop_object, hlk]
        refine ⟨hg, hl, fun kv hkv => ?_, hr⟩
        rcases mem_aset _ _ _ _ hkv with he | he
        · have hvlen : (hd :: tl).length ≤ MAX_STORED_OBJECTS :=
            ho (p, hd :: tl) (alookup_mem _ _ _ hlk)
          rw [he]
          simp only [List.length_cons] at hvlen ⊢
          omega
        · exact ho kv he
  · intro p
    exact BoundedL_prune m p ⟨hg, hl, ho, hr⟩
  · refine ⟨?_, ?_, ?_, ?_⟩ <;> intro kv hkv <;> simp [Map.clear, Map.new] at hkv





/-- Witness for `map_capacity_invariants` on a small populated map. -/
theorem map_capacity_invariants_witness :
    BoundedL (Map.mk [(⟨0, 0, 0⟩, 5)] [(⟨0, 0, 0⟩, [⟨1, 1/2, 300, none⟩])]
      [] [(⟨0, 0, 0⟩, [[1, 2]])] [(⟨0, 0, 0⟩, [(0, "X")])]) ∧
    BoundedL ((Map.mk [(⟨0, 0, 0⟩, 5)] [(⟨0, 0, 0⟩, [⟨1, 1/2, 300, none⟩])]
      [] [(⟨0, 0, 0⟩, [[1, 2]])] [(⟨0, 0, 0⟩, [(0, "X")])]).add_joules
        ⟨0, 0, 0⟩ 5).2 ∧
    BoundedL ((Map.mk [(⟨0, 0, 0⟩, 5)] [(⟨0, 0, 0⟩, [⟨1, 1/2, 300, none⟩])]
      [] [(⟨0, 0, 0⟩, [[1, 2]])] [(⟨0, 0, 0⟩, [(0, "X")])]).sub_joules
        ⟨0, 0, 0⟩ 3).2 ∧
    BoundedL ((Map.mk [(⟨0, 0, 0⟩, 5)] [(⟨0, 0, 0⟩, [⟨1, 1/2, 300, none⟩])]
      [] [(⟨0, 0, 0⟩, [[1, 2]])] [(⟨0, 0, 0⟩, [(0, "X")])]).add_packet
        ⟨0, 0, 0⟩ ⟨1, 1/2, 300, none⟩ Phase.Gas).2 ∧
    BoundedL ((Map.mk [(⟨0, 0, 0⟩, 5)] [(⟨0, 0, 0⟩, [⟨1, 1/2, 300, none⟩])]
      [] [(⟨0, 0, 0⟩, [[1, 2]])] [(⟨0, 0, 0⟩, [(0, "X")])]).pop_packet
        ⟨0, 0, 0⟩ Phase.Gas).2 ∧
    BoundedL ((Map.mk [(⟨0, 0, 0⟩, 5)] [(⟨0, 0, 0⟩, [⟨1, 1/2, 300, none⟩])]
      [] [(⟨0, 0, 0⟩, [[1, 2]])] [(⟨0, 0, 0⟩, [(0, "X")])]).register
        ⟨0, 0, 0⟩ 0 "Y").2 ∧
    BoundedL ((Map.mk [(⟨0, 0, 0⟩, 5)] [(⟨0, 0, 0⟩, [⟨1, 1/2, 300, none⟩])]
      [] [(⟨0, 0, 0⟩, [[1, 2]])] [(⟨0, 0, 0⟩, [(0, "X")])]).unregister
        ⟨0, 0, 0⟩ 0 "X") ∧
    BoundedL ((Map.mk [(⟨0, 0, 0⟩, 5)] [(⟨0, 0, 0⟩, [⟨1, 1/2, 300, none⟩])]
      [] [(⟨0, 0, 0⟩, [[1, 2]])] [(⟨0, 0, 0⟩, [(0, "X")])]).unregister_all
        0) ∧
    BoundedL ((Map.mk [(⟨0, 0, 0⟩, 5)] [(⟨0, 0, 0⟩, [⟨1, 1/2, 300, none⟩])]
      [] [(⟨0, 0, 0⟩, [[1, 2]])] [(⟨0, 0, 0⟩, [(0, "X")])]).add_object
        ⟨0, 0, 0⟩ [3]).2 ∧
    BoundedL ((Map.mk [(⟨0, 0, 0⟩, 5)] [(⟨0, 0, 0⟩, [⟨1, 1/2, 300, none⟩])]
      [] [(⟨0, 0, 0⟩, [[1, 2]])] [(⟨0, 0, 0⟩, [(0, "X")])]).pop_object
        ⟨0, 0, 0⟩).2 ∧
    BoundedL ((Map.mk [(⟨0, 0, 0⟩, 5)] [(⟨0, 0, 0⟩, [⟨1, 1/2, 300, none⟩])]
      [] [(⟨0, 0, 0⟩, [[1, 2]])] [(⟨0, 0, 0⟩, [(0, "X")])]).prune
        ⟨0, 0, 0⟩) ∧
    BoundedL (Map.mk [(⟨0, 0, 0⟩, 5)] [(⟨0, 0, 0⟩, [⟨1, 1/2, 300, none⟩])]
      [] [(⟨0, 0, 0⟩, [[1, 2]])] [(⟨0, 0, 0⟩, [(0, "X")])]).clear := by
  have h := map_capacity_invariants
    (Map.mk [(⟨0, 0, 0⟩, 5)] [(⟨0, 0, 0⟩, [⟨1, 1/2, 300, none⟩])]
      [] [(⟨0, 0, 0⟩, [[1, 2]])] [(⟨0, 0, 0⟩, [(0, "X")])]) (by decide)
  exact ⟨by decide, h.1 _ _, h.2.1 _ _, h.2.2.1 _ _ _, h.2.2.2.1 _ _,
    h.2.2.2.2.1 _ _ _, h.2.2.2.2.2.1 _ _ _, h.2.2.2.2.2.2.1 _,
    h.2.2.2.2.2.2.2.1 _ _, h.2.2.2.2.2.2.2.2.1 _,
    h.2.2.2.2.2.2.2.2.2.1 _, h.2.2.2.2.2.2.2.2.2.2⟩





theorem alookup_aremove_ne {κ α : Type} [DecidableEq κ]
    (l : List (κ × α)) (k q : κ) (h : q ≠ k) :
    alookup (aremove l k) q = alookup l q := by
  induction l with
  | nil => simp [aremove]
  | cons hd t ih =>
    obtain ⟨k', v'⟩ := hd
    by_cases hk : k' = k
    · subst hk
      have hrm : aremove ((k', v') :: t) k' = t := by
        simp [aremove]
      rw [hrm, alookup, if_neg (fun hh => h hh.symm)]
    · simp only [aremove, if_neg hk, alookup]
      by_cases hq : k' = q
      · rw [if_pos hq, if_pos hq]
      · rw [if_neg hq, if_neg hq, ih]

theorem aremove_keys_sublist {κ α : Type} [DecidableEq κ]
    (l : List (κ × α)) (k : κ) :
    ((aremove l k).map Prod.fst).Sublist (l.map Prod.fst) := by
  induction l with
  | nil => simp [aremove]
  | cons hd t ih =>
    obtain ⟨k', v'⟩ := hd
    by_cases hk : k' = k
    · simp only [aremove, if_pos hk, List.map_cons]
      exact List.sublist_cons_of_sublist _ (List.Sublist.refl _)
    · simp only [aremove, if_neg hk, List.map_cons]
      exact List.Sublist.cons₂ _ ih

theorem alookup_aremove_none {κ α : Type} [DecidableEq κ]
    (l : List (κ × α)) (k q : κ) (h : alookup l q = none) :
    alookup (aremove l k) q = none := by
  rw [alookup_eq_none_iff] at h ⊢
  intro hmem
  exact h ((aremove_keys_sublist l k).mem hmem)

theorem prune_eq_steps (m : Map) (loc : Point) :
    m.prune loc = pruneLiquidStep loc (pruneGasStep loc
      (pruneEnergyStep loc m)) := rfl

theorem pruneEnergyStep_fields (loc : Point) (m : Map) :
    (pruneEnergyStep loc m).gas_packets = m.gas_packets ∧
    (pruneEnergyStep loc m).liquid_packets = m.liquid_packets ∧
    (pruneEnergyStep loc m).objects = m.objects ∧
    (pruneEnergyStep loc m).registrations = m.registrations := by
  unfold pruneEnergyStep
  cases alookup m.energy loc with
  | none => exact ⟨rfl, rfl, rfl, rfl⟩
  | some v => by_cases hv : v = 0 <;> simp [hv]

theorem pruneGasStep_fields (loc : Point) (m : Map) :
    (pruneGasStep loc m).energy = m.energy ∧
    (pruneGasStep loc m).liquid_packets = m.liquid_packets ∧
    (pruneGasStep loc m).objects = m.objects ∧
    (pruneGasStep loc m).registrations = m.registrations := by
  unfold pruneGasStep
  cases alookup m.gas_packets loc with
  | none => exact ⟨rfl, rfl, rfl, rfl⟩
  | some vec => by_cases hv : vec.isEmpty <;> simp [hv]

theorem pruneLiquidStep_fields (loc : Point) (m : Map) :
    (pruneLiquidStep loc m).energy = m.energy ∧
    (pruneLiquidStep loc m).gas_packets = m.gas_packets ∧
    (pruneLiquidStep loc m).objects = m.objects ∧
    (pruneLiquidStep loc m).registrations = m.registrations := by
  unfold pruneLiquidStep
  cases alookup m.liquid_packets loc with
  | none => exact ⟨rfl, rfl, rfl, rfl⟩
  | some vec => by_cases hv : vec.isEmpty <;> simp [hv]

theorem prune_fields (m : Map) (loc : Point) :
    (m.prune loc).objects = m.objects ∧
    (m.prune loc).registrations = m.registrations := by
  rw [prune_eq_steps]
  rw [(pruneLiquidStep_fields _ _).2.2.1, (pruneLiquidStep_fields _ _).2.2.2,
    (pruneGasStep_fields _ _).2.2.1, (pruneGasStep_fields _ _).2.2.2,
    (pruneEnergyStep_fields _ _).2.2.1, (pruneEnergyStep_fields _ _).2.2.2]
  exact ⟨rfl, rfl⟩

theorem prune_makes_pruned (m : Map) (p : Point) (hsn : StoreNodup m)
    (hef : EmptyAt m p) : PrunedAt (m.prune p) p := by
  obtain ⟨hn1, hn2, hn3⟩ := hsn
  obtain ⟨he, hg, hl⟩ := hef
  rw [prune_eq_steps]
  have h1e : alookup (pruneEnergyStep p m).energy p = none := by
    unfold pruneEnergyStep
    rcases he with he | he <;> rw [he]
    · exact he
    · simp only [if_pos rfl]
      exact alookup_aremove_self _ _ hn1
  have h1g : (pruneEnergyStep p m).gas_packets = m.gas_packets :=
    (pruneEnergyStep_fields _ _).1
  have h1l : (pruneEnergyStep p m).liquid_packets = m.liquid_packets :=
    (pruneEnergyStep_fields _ _).2.1
  have h2e : alookup (pruneGasStep p (pruneEnergyStep p m)).energy p
      = none := by
    rw [(pruneGasStep_fields _ _).1]
    exact h1e
  have h2g : alookup (pruneGasStep p (pruneEnergyStep p m)).gas_packets p
      = none := by
    unfold pruneGasStep
    rw [h1g]
    rcases hg with hg | hg <;> rw [hg]
    · show alookup (pruneEnergyStep p m).gas_packets p = none
      rw [h1g]
      exact hg
    · show alookup (aremove m.gas_packets p) p = none
      exact alookup_aremove_self _ _ hn2
  have h2l : (pruneGasStep p (pruneEnergyStep p m)).liquid_packets
      = m.liquid_packets := by
    rw [(pruneGasStep_fields _ _).2.1, h1l]
  refine ⟨?_, ?_, ?_⟩
  · rw [(pruneLiquidStep_fields _ _).1]
    exact h2e
  · rw [(pruneLiquidStep_fields _ _).2.1]
    exact h2g
  · unfold pruneLiquidStep
    rw [h2l]
    rcases hl with hl | hl <;> rw [hl]
    · show alookup (pruneGasStep p (pruneEnergyStep p m)).liquid_packets p
        = none
      rw [h2l]
      exact hl
    · show alookup (aremove m.liquid_packets p) p = none
      exact alookup_aremove_self _ _ hn3





theorem pruneEnergyStep_energy_cases (q : Point) (m : Map) :
    (pruneEnergyStep q m).energy = m.energy ∨
    (pruneEnergyStep q m).energy = aremove m.energy q := by
  unfold pruneEnergyStep
  cases alookup m.energy q with
  | none => exact Or.inl rfl
  | some v =>
    by_cases hv : v = 0
    · simp only [if_pos hv]
      exact Or.inr (by trivial)
    · simp only [if_neg hv]
      exact Or.inl (by trivial)

theorem pruneGasStep_gas_cases (q : Point) (m : Map) :
    (pruneGasStep q m).gas_packets = m.gas_packets ∨
    (pruneGasStep q m).gas_packets = aremove m.gas_packets q := by
  unfold pruneGasStep
  cases alookup m.gas_packets q with
  | none => exact Or.inl rfl
  | some vec =>
    by_cases hv : vec.isEmpty
    · simp only [if_pos hv]
      exact Or.inr (by trivial)
    · simp only [if_neg hv]
      exact Or.inl (by trivial)

theorem pruneLiquidStep_liquid_cases (q : Point) (m : Map) :
    (pruneLiquidStep q m).liquid_packets = m.liquid_packets ∨
    (pruneLiquidStep q m).liquid_packets = aremove m.liquid_packets q := by
  unfold pruneLiquidStep
  cases alookup m.liquid_packets q with
  | none => exact Or.inl rfl
  | some vec =>
    by_cases hv : vec.isEmpty
    · simp only [if_pos hv]
      exact Or.inr (by trivial)
    · simp only [if_neg hv]
      exact Or.inl (by trivial)

theorem prune_lookup_ne (m : Map) (p q : Point) (hpq : p ≠ q) :
    alookup (m.prune q).energy p = alookup m.energy p ∧
    alookup (m.prune q).gas_packets p = alookup m.gas_packets p ∧
    alookup (m.prune q).liquid_packets p = alookup m.liquid_packets p := by
  rw [prune_eq_steps]
  have he1 : alookup (pruneEnergyStep q m).energy p
      = alookup m.energy p := by
    rcases pruneEnergyStep_energy_cases q m with hc | hc <;> rw [hc]
    exact alookup_aremove_ne _ _ _ hpq
  have hg1 : alookup (pruneGasStep q (pruneEnergyStep q m)).gas_packets p
      = alookup m.gas_packets p := by
    rcases pruneGasStep_gas_cases q (pruneEnergyStep q m) with hc | hc <;>
      rw [hc, (pruneEnergyStep_fields _ _).1]
    exact alookup_aremove_ne _ _ _ hpq
  refine ⟨?_, ?_, ?_⟩
  · rw [(pruneLiquidStep_fields _ _).1, (pruneGasStep_fields _ _).1, he1]
  · rw [(pruneLiquidStep_fields _ _).2.1, hg1]
  · rcases pruneLiquidStep_liquid_cases q
        (pruneGasStep q (pruneEnergyStep q m)) with hc | hc <;>
      rw [hc, (pruneGasStep_fields _ _).2.1,
        (pruneEnergyStep_fields _ _).2.1]
    exact alookup_aremove_ne _ _ _ hpq

theorem prune_preserves_storeNodup (m : Map) (q : Point)
    (hsn : StoreNodup m) : StoreNodup (m.prune q) := by
  obtain ⟨h1, h2, h3⟩ := hsn
  rw [prune_eq_steps]
  refine ⟨?_, ?_, ?_⟩
  · rw [(pruneLiquidStep_fields _ _).1, (pruneGasStep_fields _ _).1]
    rcases pruneEnergyStep_energy_cases q m with hc | hc <;> rw [hc]
    · exact h1
    · exact (aremove_keys_sublist _ _).nodup h1
  · rw [(pruneLiquidStep_fields _ _).2.1]
    rcases pruneGasStep_gas_cases q (pruneEnergyStep q m) with hc | hc <;>
      rw [hc, (pruneEnergyStep_fields _ _).1]
    · exact h2
    · exact (aremove_keys_sublist _ _).nodup h2
  · rcases pruneLiquidStep_liquid_cases q
        (pruneGasStep q (pruneEnergyStep q m)) with hc | hc <;>
      rw [hc, (pruneGasStep_fields _ _).2.1,
        (pruneEnergyStep_fields _ _).2.1]
    · exact h3
    · exact (aremove_keys_sublist _ _).nodup h3

theorem prune_preserves_emptyAt (m : Map) (p q : Point)
    (hsn : StoreNodup m) (h : EmptyAt m p) : EmptyAt (m.prune q) p := by
  by_cases hpq : p = q
  · subst hpq
    obtain ⟨he, hg, hl⟩ := prune_makes_pruned m p hsn h
    exact ⟨Or.inl he, Or.inl hg, Or.inl hl⟩
  · obtain ⟨he, hg, hl⟩ := h
    obtain ⟨qe, qg, ql⟩ := prune_lookup_ne m p q hpq
    exact ⟨qe ▸ he, qg ▸ hg, ql ▸ hl⟩

theorem prune_preserves_pruned (m : Map) (p q : Point)
    (h : PrunedAt m p) : PrunedAt (m.prune q) p := by
  obtain ⟨he, hg, hl⟩ := h
  rw [prune_eq_steps]
  have h1 : PrunedAt (pruneEnergyStep q m) p := by
    refine ⟨?_, ?_, ?_⟩
    · rcases pruneEnergyStep_energy_cases q m with hc | hc <;> rw [hc]
      · exact he
      · exact alookup_aremove_none _ _ _ he
    · rw [(pruneEnergyStep_fields _ _).1]
      exact hg
    · rw [(pruneEnergyStep_fields _ _).2.1]
      exact hl
  obtain ⟨h1e, h1g, h1l⟩ := h1
  have h2 : PrunedAt (pruneGasStep q (pruneEnergyStep q m)) p := by
    refine ⟨?_, ?_, ?_⟩
    · rw [(pruneGasStep_fields _ _).1]
      exact h1e
    · rcases pruneGasStep_gas_cases q (pruneEnergyStep q m) with hc | hc <;>
        rw [hc]
      · exact h1g
      · exact alookup_aremove_none _ _ _ h1g
    · rw [(pruneGasStep_fields _ _).2.1]
      exact h1l
  obtain ⟨h2e, h2g, h2l⟩ := h2
  refine ⟨?_, ?_, ?_⟩
  · rw [(pruneLiquidStep_fields _ _).1]
    exact h2e
  · rw [(pruneLiquidStep_fields _ _).2.1]
    exact h2g
  · rcases pruneLiquidStep_liquid_cases q
        (pruneGasStep q (pruneEnergyStep q m)) with hc | hc <;> rw [hc]
    · exact h2l
    · exact alookup_aremove_none _ _ _ h2l

theorem foldl_prune_pruned (ps : List Point) (p : Point) :
    ∀ m : Map, PrunedAt m p → PrunedAt (ps.foldl Map.prune m) p := by
  induction ps with
  | nil => intro m h; exact h
  | cons q rest ih =>
    intro m h
    exact ih _ (prune_preserves_pruned m p q h)

theorem foldl_prune_hits (ps : List Point) (p : Point) :
    ∀ m : Map, StoreNodup m → EmptyAt m p → p ∈ ps →
      PrunedAt (ps.foldl Map.prune m) p := by
  induction ps with
  | nil =>
    intro m _ _ hmem
    simp at hmem
  | cons q rest ih =>
    intro m hsn he hmem
    rcases List.mem_cons.mp hmem with rfl | hmem
    · simp only [List.foldl_cons]
      exact foldl_prune_pruned rest p _ (prune_makes_pruned m p hsn he)
    · simp only [List.foldl_cons]
      exact ih _ (prune_preserves_storeNodup m q hsn)
        (prune_preserves_emptyAt m p q hsn he) hmem

theorem foldl_prune_fields (ps : List Point) :
    ∀ m : Map, (ps.foldl Map.prune m).objects = m.objects ∧
      (ps.foldl Map.prune m).registrations = m.registrations := by
  induction ps with
  | nil => intro m; exact ⟨rfl, rfl⟩
  | cons q rest ih =>
    intro m
    obtain ⟨ho, hr⟩ := ih (m.prune q)
    obtain ⟨po, pr⟩ := prune_fields m q
    exact ⟨ho.trans po, hr.trans pr⟩

theorem alookup_map_values {κ α β : Type} [DecidableEq κ] (g : α → β)
    (l : List (κ × α)) (p : κ) :
    alookup (l.map (fun e => (e.1, g e.2))) p = (alookup l p).map g := by
  induction l with
  | nil => simp [alookup]
  | cons hd t ih =>
    obtain ⟨k', v'⟩ := hd
    by_cases hk : k' = p
    · simp only [List.map_cons, alookup, if_pos hk]
      rfl
    · simp only [List.map_cons, alookup, if_neg hk]
      exact ih





/-- C8 (amended): when `unregister` leaves the point with no registrations
(including the vacant-entry case) and the point's energy is zero-or-absent
and its gas and liquid queues are empty-or-absent, the point is removed from
the energy, gas and liquid stores; likewise for `unregister_all` at a point
whose registration list it empties. The objects store, however, is never
pruned — an empty object-queue entry survives, so the point is *not* removed
from every store (see the counterexample). -/
theorem unregister_prunes (m : Map) (p : Point) (c : ClientID) (w : String)
    (hsn : StoreNodup m) :
    ((alookup (m.unregister p c w).registrations p = none → EmptyAt m p →
      PrunedAt (m.unregister p c w) p ∧
      (m.unregister p c w).objects = m.objects)) ∧
    (∀ vec, alookup m.registrations p = some vec →
      (vec.filter (fun r => ¬ r.1 = c)).isEmpty → EmptyAt m p →
      PrunedAt (m.unregister_all c) p ∧
      (m.unregister_all c).objects = m.objects) := by
  constructor
  · cases hlk : alookup m.registrations p with
    | none =>
      intro _ he
      have hdef : m.unregister p c w = m.prune p := by
        simp [Map.unregister, hlk]
      rw [hdef]
      exact ⟨prune_makes_pruned m p hsn he, (prune_fields m p).1⟩
    | some vec =>
      by_cases hemp : (vec.filter
          (fun e => ¬(e.1 = c ∧ e.2 = w))).isEmpty
      · intro _ he
        have hdef : m.unregister p c w
            = (Map.mk m.energy m.gas_packets m.liquid_packets m.objects
                (aremove m.registrations p)).prune p := by
          simp only [Map.unregister, hlk]
          rw [if_pos hemp]
        rw [hdef]
        have hsn2 : StoreNodup (Map.mk m.energy m.gas_packets
            m.liquid_packets m.objects (aremove m.registrations p)) := hsn
        have he2 : EmptyAt (Map.mk m.energy m.gas_packets
            m.liquid_packets m.objects (aremove m.registrations p)) p := he
        exact ⟨prune_makes_pruned _ p hsn2 he2, (prune_fields _ p).1⟩
      · intro hreg _
        have hdef : m.unregister p c w
            = Map.mk m.energy m.gas_packets m.liquid_packets m.objects
                (aset m.registrations p
                  (vec.filter (fun e => ¬(e.1 = c ∧ e.2 = w)))) := by
          simp only [Map.unregister, hlk]
          rw [if_neg hemp]
        rw [hdef] at hreg
        have hself := alookup_aset_self m.registrations p
          (vec.filter (fun e => ¬(e.1 = c ∧ e.2 = w)))
        have : (some (vec.filter (fun e => ¬(e.1 = c ∧ e.2 = w)))
            : Option (List (ClientID × String))) = none := by
          rw [← hself]
          exact hreg
        simp at this
  · intro vec hlk hfil he
    have hdef : m.unregister_all c
        = (((m.registrations.map
              (fun e => (e.1, e.2.filter (fun r => ¬ r.1 = c)))).filter
                (fun e => e.2.isEmpty)).map Prod.fst).foldl Map.prune
            (Map.mk m.energy m.gas_packets m.liquid_packets m.objects
              ((m.registrations.map
                (fun e => (e.1, e.2.filter (fun r => ¬ r.1 = c)))).filter
                  (fun e => ¬ e.2.isEmpty))) := rfl
    have hmem : (p, vec) ∈ m.registrations := alookup_mem _ _ _ hlk
    have hmemf : (p, vec.filter (fun r => ¬ r.1 = c)) ∈
        m.registrations.map
          (fun e => (e.1, e.2.filter (fun r => ¬ r.1 = c))) :=
      List.mem_map_of_mem _ hmem
    have hmemff : (p, vec.filter (fun r => ¬ r.1 = c)) ∈
        (m.registrations.map
          (fun e => (e.1, e.2.filter (fun r => ¬ r.1 = c)))).filter
            (fun e => e.2.isEmpty) :=
      List.mem_filter.mpr ⟨hmemf, hfil⟩
    have hp : p ∈ ((m.registrations.map
        (fun e => (e.1, e.2.filter (fun r => ¬ r.1 = c)))).filter
          (fun e => e.2.isEmpty)).map Prod.fst :=
      List.mem_map_of_mem Prod.fst hmemff
    rw [hdef]
    constructor
    · exact foldl_prune_hits _ p _ hsn he hp
    · exact ((foldl_prune_fields _ _).1).trans rfl

/-- C8 counterexample: after unregistering the only building at a point
whose energy and queues are all empty, the empty object-queue entry is still
present in the objects store — the point is not removed from every store. -/
theorem unregister_leaves_object_entry :
    alookup ((Map.mk [] [] [] [(⟨0, 0, 0⟩, [])]
        [(⟨0, 0, 0⟩, [(0, "X")])]).unregister
        ⟨0, 0, 0⟩ 0 "X").registrations ⟨0, 0, 0⟩ = none ∧
    EmptyAt (Map.mk [] [] [] [(⟨0, 0, 0⟩, [])]
        [(⟨0, 0, 0⟩, [(0, "X")])]) ⟨0, 0, 0⟩ ∧
    alookup ((Map.mk [] [] [] [(⟨0, 0, 0⟩, [])]
        [(⟨0, 0, 0⟩, [(0, "X")])]).unregister
        ⟨0, 0, 0⟩ 0 "X").objects ⟨0, 0, 0⟩ = some [] := by
  refine ⟨by decide, by decide, by decide⟩

/-- Witness for `unregister_prunes` on a map with a zero-energy entry, an
empty gas queue and one registration at the point. -/
theorem unregister_prunes_witness :
    StoreNodup (Map.mk [(⟨0, 0, 0⟩, 0)] [(⟨0, 0, 0⟩, [])] []
      [(⟨0, 0, 0⟩, [[1]])] [(⟨0, 0, 0⟩, [(0, "X")])]) ∧
    alookup ((Map.mk [(⟨0, 0, 0⟩, 0)] [(⟨0, 0, 0⟩, [])] []
      [(⟨0, 0, 0⟩, [[1]])] [(⟨0, 0, 0⟩, [(0, "X")])]).unregister
        ⟨0, 0, 0⟩ 0 "X").registrations ⟨0, 0, 0⟩ = none ∧
    EmptyAt (Map.mk [(⟨0, 0, 0⟩, 0)] [(⟨0, 0, 0⟩, [])] []
      [(⟨0, 0, 0⟩, [[1]])] [(⟨0, 0, 0⟩, [(0, "X")])]) ⟨0, 0, 0⟩ ∧
    (PrunedAt ((Map.mk [(⟨0, 0, 0⟩, 0)] [(⟨0, 0, 0⟩, [])] []
      [(⟨0, 0, 0⟩, [[1]])] [(⟨0, 0, 0⟩, [(0, "X")])]).unregister
        ⟨0, 0, 0⟩ 0 "X") ⟨0, 0, 0⟩ ∧
     ((Map.mk [(⟨0, 0, 0⟩, 0)] [(⟨0, 0, 0⟩, [])] []
      [(⟨0, 0, 0⟩, [[1]])] [(⟨0, 0, 0⟩, [(0, "X")])]).unregister
        ⟨0, 0, 0⟩ 0 "X").objects
       = (Map.mk [(⟨0, 0, 0⟩, 0)] [(⟨0, 0, 0⟩, [])] []
      [(⟨0, 0, 0⟩, [[1]])] [(⟨0, 0, 0⟩, [(0, "X")])]).objects) ∧
    (PrunedAt ((Map.mk [(⟨0, 0, 0⟩, 0)] [(⟨0, 0, 0⟩, [])] []
      [(⟨0, 0, 0⟩, [[1]])] [(⟨0, 0, 0⟩, [(0, "X")])]).unregister_all 0)
        ⟨0, 0, 0⟩ ∧
     ((Map.mk [(⟨0, 0, 0⟩, 0)] [(⟨0, 0, 0⟩, [])] []
      [(⟨0, 0, 0⟩, [[1]])] [(⟨0, 0, 0⟩, [(0, "X")])]).unregister_all
        0).objects
       = (Map.mk [(⟨0, 0, 0⟩, 0)] [(⟨0, 0, 0⟩, [])] []
      [(⟨0, 0, 0⟩, [[1]])] [(⟨0, 0, 0⟩, [(0, "X")])]).objects) := by
  refine ⟨by decide, by decide, by decide, ?_, ?_⟩
  · exact (unregister_prunes (Map.mk [(⟨0, 0, 0⟩, 0)] [(⟨0, 0, 0⟩, [])] []
      [(⟨0, 0, 0⟩, [[1]])] [(⟨0, 0, 0⟩, [(0, "X")])]) ⟨0, 0, 0⟩ 0 "X"
      (by decide)).1 (by decide) (by decide)
  · exact (unregister_prunes (Map.mk [(⟨0, 0, 0⟩, 0)] [(⟨0, 0, 0⟩, [])] []
      [(⟨0, 0, 0⟩, [[1]])] [(⟨0, 0, 0⟩, [(0, "X")])]) ⟨0, 0, 0⟩ 0 "X"
      (by decide)).2 [(0, "X")] (by decide) (by decide) (by decide)





/-- C7 (amended): the entry loop of `try_load` loads exactly the entries
whose key parses — which per `parseKey` means the two-component `"x,y"` form
of signed 32-bit decimals — at the parsed point, skips every other key
(including the `"x,y,z"` form, see the counterexample) silently, and an
object top level always loads without failing. -/
theorem try_load_key_filter :
    (∀ (mos : Nat) (entries : List (List Char × TileJson)) (m : Map),
      loadEntries mos entries m
        = (entries.filterMap
            (fun kt => (parseKey kt.1).map (fun q => (q, kt.2)))).foldl
            (fun mm pt => loadTile mos mm pt.1 pt.2) m) ∧
    (∀ (entries : List (List Char × TileJson)) (mos : Nat),
      Map.new.try_load (.object entries) mos
        = Except.ok (loadEntries mos entries Map.new)) := by
  constructor
  · intro mos entries
    induction entries with
    | nil => intro m; rfl
    | cons kt rest ih =>
      intro m
      obtain ⟨k, t⟩ := kt
      cases hp : parseKey k with
      | none =>
        have hstep : loadEntries mos ((k, t) :: rest) m
            = loadEntries mos rest m := by
          simp only [loadEntries, List.foldl_cons, hp]
        rw [hstep, List.filterMap_cons, hp]
        exact ih m
      | some q =>
        have hstep : loadEntries mos ((k, t) :: rest) m
            = loadEntries mos rest (loadTile mos m q t) := by
          simp only [loadEntries, List.foldl_cons, hp]
        rw [hstep, List.filterMap_cons, hp]
        simp only [Option.map_some, List.foldl_cons]
        exact ih (loadTile mos m q t)
  · intro entries mos
    rfl

/-- C7 counterexample: a key in the `"x,y,z"` form — which the claim says is
loaded at that 3-D point — is skipped silently: loading a snapshot whose
only entry has key `"1,2,3"` produces the empty map, while the plain
`"x,y"` form parses. -/
theorem try_load_skips_xyz_key :
    Map.new.try_load
        (.object [("1,2,3".data, TileJson.mk (some 5) none none none)]) 100
      = Except.ok Map.new ∧
    parseKey "1,2,3".data = none ∧
    parseKey "1,2".data = some ⟨1, 2, 0⟩ := by
  refine ⟨rfl, by decide, by decide⟩





theorem natToDigitsRev_val (fuel : Nat) :
    ∀ n : Nat, n < 10 ^ fuel →
      (natToDigitsRev fuel n).reverse.foldl (fun a d => a * 10 + d) 0
        = n := by
  induction fuel with
  | zero =>
    intro n hn
    interval_cases n
    rfl
  | succ fuel ih =>
    intro n hn
    by_cases h0 : n = 0
    · subst h0
      simp [natToDigitsRev]
    · have hstep : natToDigitsRev (fuel + 1) n
          = n % 10 :: natToDigitsRev fuel (n / 10) := by
        simp [natToDigitsRev, h0]
      have hdiv : n / 10 < 10 ^ fuel := by
        rw [Nat.div_lt_iff_lt_mul (by norm_num)]
        calc n < 10 ^ (fuel + 1) := hn
          _ = 10 ^ fuel * 10 := by ring
      rw [hstep, List.reverse_cons, List.foldl_append]
      rw [ih (n / 10) hdiv]
      simp only [List.foldl_cons, List.foldl_nil]
      omega

theorem natToDigitsRev_lt (fuel : Nat) :
    ∀ n : Nat, ∀ d ∈ natToDigitsRev fuel n, d < 10 := by
  induction fuel with
  | zero =>
    intro n d hd
    simp [natToDigitsRev] at hd
  | succ fuel ih =>
    intro n d hd
    by_cases h0 : n = 0
    · subst h0
      simp [natToDigitsRev] at hd
    · rw [show natToDigitsRev (fuel + 1) n
          = n % 10 :: natToDigitsRev fuel (n / 10) from by
            simp [natToDigitsRev, h0]] at hd
      rcases List.mem_cons.mp hd with rfl | hd
      · exact Nat.mod_lt _ (by norm_num)
      · exact ih (n / 10) d hd

theorem digitVal_ofNat (d : Nat) (hd : d < 10) :
    digitVal (Char.ofNat (48 + d)) = some d := by
  interval_cases d <;> decide

theorem digitChar_ne (d : Nat) (hd : d < 10) :
    Char.ofNat (48 + d) ≠ '+' ∧ Char.ofNat (48 + d) ≠ '-' ∧
    Char.ofNat (48 + d) ≠ ',' := by
  interval_cases d <;> refine ⟨by decide, by decide, by decide⟩

theorem parseDigitsGo_map (ds : List Nat) :
    ∀ acc : Nat, (∀ d ∈ ds, d < 10) →
      parseDigitsGo acc (ds.map (fun d => Char.ofNat (48 + d)))
        = some (ds.foldl (fun a d => a * 10 + d) acc) := by
  induction ds with
  | nil => intro acc _; rfl
  | cons d rest ih =>
    intro acc hd
    have hd0 : d < 10 := hd d (List.mem_cons_self _ _)
    simp only [List.map_cons, parseDigitsGo, digitVal_ofNat d hd0,
      List.foldl_cons]
    exact ih (acc * 10 + d) (fun x hx => hd x (List.mem_cons_of_mem _ hx))

theorem natRepr_digits (n : Nat) :
    ∀ c ∈ natRepr n, 48 ≤ c.toNat ∧ c.toNat ≤ 57 := by
  intro c hc
  unfold natRepr at hc
  by_cases h0 : n = 0
  · rw [if_pos h0] at hc
    rcases List.mem_singleton.mp hc with rfl
    exact ⟨by decide, by decide⟩
  · rw [if_neg h0] at hc
    obtain ⟨d, hd, rfl⟩ := List.mem_map.mp hc
    have hd10 : d < 10 := natToDigitsRev_lt (n + 1) n d
      (List.mem_reverse.mp hd)
    interval_cases d <;> exact ⟨by decide, by decide⟩

theorem parseNatChars_ne_nil (l : List Char) (h : l ≠ []) :
    parseNatChars l = parseDigitsGo 0 l := by
  cases l with
  | nil => exact absurd rfl h
  | cons c cs => rfl

theorem parseNatChars_natRepr (n : Nat) :
    parseNatChars (natRepr n) = some n := by
  by_cases h0 : n = 0
  · subst h0
    rfl
  · have hlt : n < 10 ^ (n + 1) :=
      Nat.lt_of_lt_of_le (Nat.lt_two_pow n)
        (le_trans (Nat.pow_le_pow_left (by norm_num) n)
          (Nat.pow_le_pow_right (by norm_num) (Nat.le_succ n)))
    have hne : natToDigitsRev (n + 1) n ≠ [] := by
      intro hfm
      have hval := natToDigitsRev_val (n + 1) n hlt
      rw [hfm] at hval
      simp at hval
      exact h0 hval.symm
    have hlne : (natToDigitsRev (n + 1) n).reverse.map
        (fun d => Char.ofNat (48 + d)) ≠ [] := by
      simp only [ne_eq, List.map_eq_nil_iff, List.reverse_eq_nil_iff]
      exact hne
    unfold natRepr
    rw [if_neg h0, parseNatChars_ne_nil _ hlne,
      parseDigitsGo_map _ 0 (fun d hd => natToDigitsRev_lt (n + 1) n d
        (List.mem_reverse.mp hd)),
      natToDigitsRev_val (n + 1) n hlt]






theorem natRepr_ne_nil (n : Nat) : natRepr n ≠ [] := by
  unfold natRepr
  by_cases h0 : n = 0
  · rw [if_pos h0]
    simp
  · rw [if_neg h0]
    have hlt : n < 10 ^ (n + 1) :=
      Nat.lt_of_lt_of_le (Nat.lt_two_pow n)
        (le_trans (Nat.pow_le_pow_left (by norm_num) n)
          (Nat.pow_le_pow_right (by norm_num) (Nat.le_succ n)))
    have hne : natToDigitsRev (n + 1) n ≠ [] := by
      intro hfm
      have hval := natToDigitsRev_val (n + 1) n hlt
      rw [hfm] at hval
      simp at hval
      exact h0 hval.symm
    simp only [ne_eq, List.map_eq_nil_iff, List.reverse_eq_nil_iff]
    exact hne

theorem natRepr_head (n : Nat) :
    ∃ c cs, natRepr n = c :: cs ∧ ¬ c = '+' ∧ ¬ c = '-' := by
  cases hcons : natRepr n with
  | nil => exact absurd hcons (natRepr_ne_nil n)
  | cons c cs =>
    have hd := natRepr_digits n c (hcons ▸ List.mem_cons_self c cs)
    refine ⟨c, cs, rfl, ?_, ?_⟩
    · intro hc
      rw [hc] at hd
      revert hd
      decide
    · intro hc
      rw [hc] at hd
      revert hd
      decide

theorem natRepr_no_comma (n : Nat) : ∀ c ∈ natRepr n, ¬ c = ',' := by
  intro c hc hcc
  have hd := natRepr_digits n c hc
  rw [hcc] at hd
  revert hd
  decide

theorem intChars_no_comma (x : Int) : ∀ c ∈ intChars x, ¬ c = ',' := by
  intro c hc
  unfold intChars at hc
  by_cases hx : x < 0
  · rw [if_pos hx] at hc
    rcases List.mem_cons.mp hc with rfl | hc
    · decide
    · exact natRepr_no_comma _ c hc
  · rw [if_neg hx] at hc
    exact natRepr_no_comma _ c hc

theorem parse_i32_neg_head (r : List Char) :
    parse_i32 ('-' :: r) = (parseNatChars r).bind
      (fun n => if n ≤ 2 ^ 31 then some (-(n : Int)) else none) := rfl

theorem parse_i32_digit_head (c : Char) (r : List Char) (hp : ¬ c = '+')
    (hm : ¬ c = '-') :
    parse_i32 (c :: r) = (parseNatChars (c :: r)).bind
      (fun n => if n ≤ 2 ^ 31 - 1 then some ((n : Int)) else none) := by
  simp only [parse_i32]
  rw [if_neg hp, if_neg hm]

theorem parse_i32_intChars (x : Int) (h1 : -(2 ^ 31) ≤ x)
    (h2 : x < 2 ^ 31) : parse_i32 (intChars x) = some x := by
  unfold intChars
  by_cases hx : x < 0
  · rw [if_pos hx, parse_i32_neg_head, parseNatChars_natRepr,
      Option.some_bind, if_pos (by omega : x.natAbs ≤ 2 ^ 31)]
    simp only [Option.some.injEq]
    omega
  · rw [if_neg hx]
    obtain ⟨c, cs, hcons, hcp, hcm⟩ := natRepr_head x.natAbs
    rw [hcons, parse_i32_digit_head c cs hcp hcm, ← hcons,
      parseNatChars_natRepr, Option.some_bind,
      if_pos (by omega : x.natAbs ≤ 2 ^ 31 - 1)]
    simp only [Option.some.injEq]
    omega

theorem splitComma_no_comma (l : List Char) (h : ∀ c ∈ l, ¬ c = ',') :
    splitComma l = [l] := by
  induction l with
  | nil => rfl
  | cons c rest ih =>
    have hc : ¬ c = ',' := h c (List.mem_cons_self _ _)
    simp only [splitComma, if_neg hc]
    rw [ih (fun x hx => h x (List.mem_cons_of_mem _ hx))]

theorem splitComma_append (a b : List Char) (h : ∀ c ∈ a, ¬ c = ',') :
    splitComma (a ++ ',' :: b) = a :: splitComma b := by
  induction a with
  | nil =>
    simp only [List.nil_append, splitComma]
    rw [if_pos trivial]
  | cons c rest ih =>
    have hc : ¬ c = ',' := h c (List.mem_cons_self _ _)
    simp only [List.cons_append, splitComma, if_neg hc, List.append_eq]
    rw [ih (fun x hx => h x (List.mem_cons_of_mem _ hx))]

theorem parseKey_as_string (p : Point) (hp : PtOK p) :
    parseKey p.as_string = some p := by
  obtain ⟨px, py, pz⟩ := p
  obtain ⟨hz, hx1, hx2, hy1, hy2⟩ := hp
  simp only at hz hx1 hx2 hy1 hy2
  subst hz
  unfold Point.as_string
  rw [if_pos rfl]
  unfold parseKey
  simp only
  rw [splitComma_append _ _ (intChars_no_comma px),
    splitComma_no_comma _ (intChars_no_comma py)]
  show (match parse_i32 (intChars px), parse_i32 (intChars py) with
    | some x, some y => some (Point.mk x y 0)
    | _, _ => none) = some (Point.mk px py 0)
  rw [parse_i32_intChars px hx1 hx2, parse_i32_intChars py hy1 hy2]

theorem as_string_congr (p q : Point) (hpq : p = q) :
    p.as_string = q.as_string := by rw [hpq]





theorem try_save_eq (m : Map) :
    m.try_save
      = saveFold (fun os => os.length > 0)
          (fun os t => { t with objects := some os }) m.objects
          (saveFold (fun q => q.length > 0)
            (fun q t => { t with liquid_packets := some q })
            m.liquid_packets
            (saveFold (fun q => q.length > 0)
              (fun q t => { t with gas_packets := some q }) m.gas_packets
              (saveFold (fun v => v > 0)
                (fun v t => { t with energy := some v }) m.energy []))) :=
  rfl

theorem alookup_append {κ α : Type} [DecidableEq κ]
    (s1 s2 : List (κ × α)) (k : κ) :
    alookup (s1 ++ s2) k
      = match alookup s1 k with
        | some v => some v
        | none => alookup s2 k := by
  induction s1 with
  | nil => simp [alookup]
  | cons hd t ih =>
    obtain ⟨k', v'⟩ := hd
    by_cases hk : k' = k
    · simp only [List.cons_append, alookup, if_pos hk]
    · simp only [List.cons_append, alookup, if_neg hk]
      exact ih

theorem setStrKey_lookup_self (s : List (List Char × TileJson))
    (k : List Char) (f : TileJson → TileJson) :
    alookup (setStrKey s k f) k
      = some (f ((alookup s k).getD emptyTile)) := by
  unfold setStrKey
  cases hl : alookup s k with
  | none =>
    rw [alookup_append, hl]
    simp [alookup]
  | some t =>
    rw [alookup_aset_self]
    rfl

theorem setStrKey_lookup_ne (s : List (List Char × TileJson))
    (k k' : List Char) (f : TileJson → TileJson) (h : k' ≠ k) :
    alookup (setStrKey s k f) k' = alookup s k' := by
  unfold setStrKey
  cases hl : alookup s k with
  | none =>
    rw [alookup_append]
    cases hl' : alookup s k' with
    | none =>
      simp only [alookup]
      rw [if_neg (fun hh => h hh.symm)]
    | some t => rfl
  | some t => exact alookup_aset_ne _ _ _ _ h

theorem as_string_inj (p q : Point) (hp : PtOK p) (hq : PtOK q)
    (h : p.as_string = q.as_string) : p = q := by
  have h1 := parseKey_as_string p hp
  rw [h, parseKey_as_string q hq] at h1
  injection h1 with h1
  exact h1.symm

theorem saveFold_lookup {β : Type} (pred : β → Prop) [DecidablePred pred]
    (u : β → TileJson → TileJson) (l : List (Point × β)) :
    ∀ (s : List (List Char × TileJson)) (p : Point), PtOK p →
    (l.map Prod.fst).Nodup → (∀ kv ∈ l, PtOK kv.1) →
    alookup (saveFold pred u l s) p.as_string
      = match alookup l p with
        | some v =>
          if pred v then
            some (u v ((alookup s p.as_string).getD emptyTile))
          else alookup s p.as_string
        | none => alookup s p.as_string := by
  induction l with
  | nil =>
    intro s p _ _ _
    rfl
  | cons kv rest ih =>
    intro s p hp hnd hall
    obtain ⟨q, v⟩ := kv
    simp only [List.map_cons, List.nodup_cons] at hnd
    have hqok : PtOK q := hall (q, v) (List.mem_cons_self _ _)
    have hrestall : ∀ kv ∈ rest, PtOK kv.1 :=
      fun x hx => hall x (List.mem_cons_of_mem _ hx)
    have hstep : saveFold pred u ((q, v) :: rest) s
        = saveFold pred u rest
            (if pred v then setStrKey s q.as_string (u v) else s) := by
      simp only [saveFold, List.foldl_cons]
    by_cases hpq : q = p
    · subst hpq
      have hrest : alookup rest q = none := by
        rw [alookup_eq_none_iff]
        exact hnd.1
      have hhead : alookup ((q, v) :: rest) q = some v := by
        simp [alookup]
      rw [hstep, ih _ q hp hnd.2 hrestall, hrest, hhead]
      show alookup (if pred v then setStrKey s q.as_string (u v) else s)
            q.as_string
          = if pred v then
              some (u v ((alookup s q.as_string).getD emptyTile))
            else alookup s q.as_string
      by_cases hpv : pred v
      · rw [if_pos hpv, if_pos hpv, setStrKey_lookup_self]
      · rw [if_neg hpv, if_neg hpv]
    · have hhead : alookup ((q, v) :: rest) p = alookup rest p := by
        simp only [alookup]
        rw [if_neg hpq]
      have hkeys : p.as_string ≠ q.as_string :=
        fun hh => hpq (as_string_inj q p hqok hp hh.symm)
      have hs' : alookup (if pred v then setStrKey s q.as_string (u v)
          else s) p.as_string = alookup s p.as_string := by
        by_cases hpv : pred v
        · rw [if_pos hpv, setStrKey_lookup_ne _ _ _ _ hkeys]
        · rw [if_neg hpv]
      rw [hstep, ih _ p hp hnd.2 hrestall, hhead, hs']





theorem tile_match_if (E : Option Nat) (G L : Option (List MatPacket))
    (O : Option (List (List Nat))) :
    (match O with
     | some q => some (TileJson.mk E G L (some q))
     | none =>
       match L with
       | some lq => some (TileJson.mk E G (some lq) none)
       | none =>
         match G with
         | some g => some (TileJson.mk E (some g) none none)
         | none =>
           E.map (fun e => TileJson.mk (some e) none none none))
      = if TileJson.mk E G L O = emptyTile then none
        else some (TileJson.mk E G L O) := by
  rcases O with _ | q
  · rcases L with _ | lq
    · rcases G with _ | g
      · rcases E with _ | e <;> simp [emptyTile]
      · simp [emptyTile]
    · simp [emptyTile]
  · simp [emptyTile]

theorem try_save_lookup (m : Map) (mos : Nat) (hinv : SaveInv m mos)
    (p : Point) (hp : PtOK p) :
    alookup m.try_save p.as_string
      = if tileOf m p = emptyTile then none else some (tileOf m p) := by
  obtain ⟨nd1, nd2, nd3, nd4, hie, hig, hil, hio⟩ := hinv
  have s1 : alookup (saveFold (fun v => v > 0)
      (fun v t => { t with energy := some v }) m.energy []) p.as_string
      = ((alookup m.energy p).bind
          (fun v => if v > 0 then some v else none)).map
          (fun e => TileJson.mk (some e) none none none) := by
    rw [saveFold_lookup _ _ m.energy _ p hp nd1
      (fun kv hkv => (hie kv hkv).1)]
    rcases hoe : alookup m.energy p with _ | v
    · simp [alookup]
    · by_cases hv : v > 0 <;> simp [hv, alookup, emptyTile]
  have s1d : (alookup (saveFold (fun v => v > 0)
      (fun v t => { t with energy := some v }) m.energy [])
        p.as_string).getD emptyTile
      = TileJson.mk ((alookup m.energy p).bind
          (fun v => if v > 0 then some v else none)) none none none := by
    rw [s1]
    rcases hbe : (alookup m.energy p).bind
        (fun v => if v > 0 then some v else none) with _ | e <;>
      simp [emptyTile]
  have s2 : alookup (saveFold (fun q => q.length > 0)
      (fun q t => { t with gas_packets := some q }) m.gas_packets
      (saveFold (fun v => v > 0)
        (fun v t => { t with energy := some v }) m.energy []))
        p.as_string
      = match (alookup m.gas_packets p).bind
          (fun q => if q.length > 0 then some q else none) with
        | some g =>
          some (TileJson.mk ((alookup m.energy p).bind
            (fun v => if v > 0 then some v else none)) (some g) none none)
        | none =>
          ((alookup m.energy p).bind
            (fun v => if v > 0 then some v else none)).map
            (fun e => TileJson.mk (some e) none none none) := by
    rw [saveFold_lookup _ _ m.gas_packets _ p hp nd2
      (fun kv hkv => (hig kv hkv).1)]
    rcases hog : alookup m.gas_packets p with _ | q
    · simp [s1]
    · by_cases hq : q.length > 0
      · simp [s1d, hq]
      · simp [s1, hq]
  have s2d : (alookup (saveFold (fun q => q.length > 0)
      (fun q t => { t with gas_packets := some q }) m.gas_packets
      (saveFold (fun v => v > 0)
        (fun v t => { t with energy := some v }) m.energy []))
        p.as_string).getD emptyTile
      = TileJson.mk ((alookup m.energy p).bind
          (fun v => if v > 0 then some v else none))
          ((alookup m.gas_packets p).bind
            (fun q => if q.length > 0 then some q else none)) none none := by
    rw [s2]
    rcases hbg : (alookup m.gas_packets p).bind
        (fun q => if q.length > 0 then some q else none) with _ | g
    · rcases hbe : (alookup m.energy p).bind
          (fun v => if v > 0 then some v else none) with _ | e <;>
        simp [emptyTile]
    · simp
  have s3 : alookup (saveFold (fun q => q.length > 0)
      (fun q t => { t with liquid_packets := some q }) m.liquid_packets
      (saveFold (fun q => q.length > 0)
        (fun q t => { t with gas_packets := some q }) m.gas_packets
        (saveFold (fun v => v > 0)
          (fun v t => { t with energy := some v }) m.energy [])))
        p.as_string
      = match (alookup m.liquid_packets p).bind
          (fun q => if q.length > 0 then some q else none) with
        | some lq =>
          some (TileJson.mk ((alookup m.energy p).bind
            (fun v => if v > 0 then some v else none))
            ((alookup m.gas_packets p).bind
              (fun q => if q.length > 0 then some q else none))
            (some lq) none)
        | none =>
          match (alookup m.gas_packets p).bind
            (fun q => if q.length > 0 then some q else none) with
          | some g =>
            some (TileJson.mk ((alookup m.energy p).bind
              (fun v => if v > 0 then some v else none)) (some g) none none)
          | none =>
            ((alookup m.energy p).bind
              (fun v => if v > 0 then some v else none)).map
              (fun e => TileJson.mk (some e) none none none) := by
    rw [saveFold_lookup _ _ m.liquid_packets _ p hp nd3
      (fun kv hkv => (hil kv hkv).1)]
    rcases hol : alookup m.liquid_packets p with _ | q
    · simp [s2]
    · by_cases hq : q.length > 0
      · simp [s2d, hq]
      · simp [s2, hq]
  have s3d : (alookup (saveFold (fun q => q.length > 0)
      (fun q t => { t with liquid_packets := some q }) m.liquid_packets
      (saveFold (fun q => q.length > 0)
        (fun q t => { t with gas_packets := some q }) m.gas_packets
        (saveFold (fun v => v > 0)
          (fun v t => { t with energy := some v }) m.energy [])))
        p.as_string).getD emptyTile
      = TileJson.mk ((alookup m.energy p).bind
          (fun v => if v > 0 then some v else none))
          ((alookup m.gas_packets p).bind
            (fun q => if q.length > 0 then some q else none))
          ((alookup m.liquid_packets p).bind
            (fun q => if q.length > 0 then some q else none)) none := by
    rw [s3]
    rcases hbl : (alookup m.liquid_packets p).bind
        (fun q => if q.length > 0 then some q else none) with _ | lq
    · rcases hbg : (alookup m.gas_packets p).bind
          (fun q => if q.length > 0 then some q else none) with _ | g
      · rcases hbe : (alookup m.energy p).bind
            (fun v => if v > 0 then some v else none) with _ | e <;>
          simp [emptyTile]
      · simp
    · simp
  have htile : tileOf m p
      = TileJson.mk ((alookup m.energy p).bind
          (fun v => if v > 0 then some v else none))
          ((alookup m.gas_packets p).bind
            (fun q => if q.length > 0 then some q else none))
          ((alookup m.liquid_packets p).bind
            (fun q => if q.length > 0 then some q else none))
          ((alookup m.objects p).bind
            (fun q => if q.length > 0 then some q else none)) := rfl
  rw [try_save_eq]
  rw [saveFold_lookup _ _ m.objects _ p hp nd4
    (fun kv hkv => (hio kv hkv).1)]
  rw [htile, ← tile_match_if]
  rcases hoo : alookup m.objects p with _ | q
  · simp [s3]
  · by_cases hq : q.length > 0
    · simp [s3d, hq]
    · simp [s3, hq]





theorem aset_keys_mem {κ α : Type} [DecidableEq κ] (l : List (κ × α))
    (k : κ) (v : α) (h : k ∈ l.map Prod.fst) :
    (aset l k v).map Prod.fst = l.map Prod.fst := by
  induction l with
  | nil => simp at h
  | cons hd t ih =>
    obtain ⟨k', v'⟩ := hd
    by_cases hk : k' = k
    · subst hk
      simp [aset]
    · simp only [List.map_cons, List.mem_cons] at h
      rcases h with h | h
      · exact absurd h.symm hk
      · simp [aset, hk, ih h]

theorem mem_setStrKey_key (s : List (List Char × TileJson)) (k : List Char)
    (f : TileJson → TileJson) (x : List Char × TileJson)
    (h : x ∈ setStrKey s k f) : x.1 = k ∨ x.1 ∈ s.map Prod.fst := by
  unfold setStrKey at h
  cases hl : alookup s k with
  | none =>
    rw [hl] at h
    rcases List.mem_append.mp h with h | h
    · exact Or.inr (List.mem_map.mpr ⟨x, h, rfl⟩)
    · rcases List.mem_singleton.mp h with rfl
      exact Or.inl rfl
  | some t =>
    rw [hl] at h
    rcases mem_aset s k (f t) x h with h | h
    · rw [h]
      exact Or.inl rfl
    · exact Or.inr (List.mem_map.mpr ⟨x, h, rfl⟩)

theorem setStrKey_keys_nodup (s : List (List Char × TileJson))
    (k : List Char) (f : TileJson → TileJson)
    (h : (s.map Prod.fst).Nodup) :
    ((setStrKey s k f).map Prod.fst).Nodup := by
  unfold setStrKey
  cases hl : alookup s k with
  | none =>
    rw [List.map_append]
    rw [List.nodup_append]
    refine ⟨h, List.nodup_singleton _, ?_⟩
    intro a ha hb
    rcases List.mem_singleton.mp hb with rfl
    exact (alookup_eq_none_iff s a).mp hl ha
  | some t =>
    rw [aset_keys_mem]
    · exact h
    · rcases List.mem_map.mpr ⟨(k, t), alookup_mem s k t hl, rfl⟩ with hm
      exact hm

theorem saveFold_key_mem {β : Type} (pred : β → Prop) [DecidablePred pred]
    (u : β → TileJson → TileJson) (l : List (Point × β)) :
    ∀ (s : List (List Char × TileJson)) (x : List Char × TileJson),
      x ∈ saveFold pred u l s →
      x.1 ∈ s.map Prod.fst ∨
        ∃ q ∈ l.map Prod.fst, x.1 = Point.as_string q := by
  induction l with
  | nil =>
    intro s x h
    exact Or.inl (List.mem_map.mpr ⟨x, h, rfl⟩)
  | cons kv rest ih =>
    intro s x h
    obtain ⟨q, v⟩ := kv
    have hstep : saveFold pred u ((q, v) :: rest) s
        = saveFold pred u rest
            (if pred v then setStrKey s q.as_string (u v) else s) := by
      simp only [saveFold, List.foldl_cons]
    rw [hstep] at h
    rcases ih _ x h with h' | h'
    · by_cases hpv : pred v
      · rw [if_pos hpv] at h'
        obtain ⟨y, hy, hyx⟩ := List.mem_map.mp h'
        rcases mem_setStrKey_key s q.as_string (u v) y hy with h2 | h2
        · exact Or.inr ⟨q, by simp, by rw [← hyx, h2]⟩
        · exact Or.inl (by rw [← hyx]; exact h2)
      · rw [if_neg hpv] at h'
        exact Or.inl h'
    · obtain ⟨q', hq', hx⟩ := h'
      exact Or.inr ⟨q', by simp [hq'], hx⟩

theorem saveFold_keys_nodup {β : Type} (pred : β → Prop) [DecidablePred pred]
    (u : β → TileJson → TileJson) (l : List (Point × β)) :
    ∀ s : List (List Char × TileJson), (s.map Prod.fst).Nodup →
      ((saveFold pred u l s).map Prod.fst).Nodup := by
  induction l with
  | nil => intro s h; exact h
  | cons kv rest ih =>
    intro s h
    obtain ⟨q, v⟩ := kv
    have hstep : saveFold pred u ((q, v) :: rest) s
        = saveFold pred u rest
            (if pred v then setStrKey s q.as_string (u v) else s) := by
      simp only [saveFold, List.foldl_cons]
    rw [hstep]
    apply ih
    by_cases hpv : pred v
    · rw [if_pos hpv]
      exact setStrKey_keys_nodup s q.as_string (u v) h
    · rw [if_neg hpv]
      exact h

theorem try_save_keys_nodup (m : Map) :
    ((m.try_save).map Prod.fst).Nodup := by
  rw [try_save_eq]
  apply saveFold_keys_nodup
  apply saveFold_keys_nodup
  apply saveFold_keys_nodup
  apply saveFold_keys_nodup
  exact List.nodup_nil

theorem try_save_key_prov (m : Map) (mos : Nat) (hinv : SaveInv m mos) :
    ∀ x ∈ m.try_save, ∃ q, PtOK q ∧ x.1 = q.as_string := by
  obtain ⟨_, _, _, _, hie, hig, hil, hio⟩ := hinv
  intro x hx
  rw [try_save_eq] at hx
  have hpt : ∀ {β : Type} (l : List (Point × β)),
      (∀ kv ∈ l, PtOK kv.1) → ∀ q ∈ l.map Prod.fst, PtOK q := by
    intro β l hl q hq
    obtain ⟨kv, hkv, rfl⟩ := List.mem_map.mp hq
    exact hl kv hkv
  rcases saveFold_key_mem _ _ m.objects _ x hx with h | h
  swap
  · obtain ⟨q, hq, hx1⟩ := h
    exact ⟨q, hpt m.objects (fun kv hkv => (hio kv hkv).1) q hq, hx1⟩
  obtain ⟨y, hy, hyx⟩ := List.mem_map.mp h
  rcases saveFold_key_mem _ _ m.liquid_packets _ y hy with h | h
  swap
  · obtain ⟨q, hq, hy1⟩ := h
    exact ⟨q, hpt m.liquid_packets (fun kv hkv => (hil kv hkv).1) q hq,
      by rw [← hyx, hy1]⟩
  obtain ⟨z, hz, hzy⟩ := List.mem_map.mp h
  rcases saveFold_key_mem _ _ m.gas_packets _ z hz with h | h
  swap
  · obtain ⟨q, hq, hz1⟩ := h
    exact ⟨q, hpt m.gas_packets (fun kv hkv => (hig kv hkv).1) q hq,
      by rw [← hyx, ← hzy, hz1]⟩
  obtain ⟨w, hw, hwz⟩ := List.mem_map.mp h
  rcases saveFold_key_mem _ _ m.energy _ w hw with h | h
  · simp at h
  · obtain ⟨q, hq, hw1⟩ := h
    exact ⟨q, hpt m.energy (fun kv hkv => (hie kv hkv).1) q hq,
      by rw [← hyx, ← hzy, ← hwz, hw1]⟩

theorem alookup_of_mem_nodup {κ α : Type} [DecidableEq κ]
    (l : List (κ × α)) (x : κ × α) (h : x ∈ l)
    (hnd : (l.map Prod.fst).Nodup) : alookup l x.1 = some x.2 := by
  induction l with
  | nil => simp at h
  | cons hd t ih =>
    obtain ⟨k', v'⟩ := hd
    simp only [List.map_cons, List.nodup_cons] at hnd
    rcases List.mem_cons.mp h with rfl | h
    · simp [alookup]
    · have hk : ¬ k' = x.1 := by
        intro hk
        apply hnd.1
        rw [hk]
        exact List.mem_map.mpr ⟨x, h, rfl⟩
      show (if k' = x.1 then some v' else alookup t x.1) = some x.2
      rw [if_neg hk]
      exact ih h hnd.2





theorem add_joules_other_fields (m : Map) (loc : Point) (amt : Nat) :
    (m.add_joules loc amt).2.gas_packets = m.gas_packets ∧
    (m.add_joules loc amt).2.liquid_packets = m.liquid_packets ∧
    (m.add_joules loc amt).2.objects = m.objects ∧
    (m.add_joules loc amt).2.registrations = m.registrations :=
  ⟨rfl, rfl, rfl, rfl⟩

theorem add_joules_energy_ne (m : Map) (loc p : Point) (amt : Nat)
    (h : p ≠ loc) :
    alookup (m.add_joules loc amt).2.energy p = alookup m.energy p :=
  alookup_aset_ne _ _ _ _ h

theorem add_joules_lookup_none (m : Map) (pt : Point) (amt : Nat)
    (h : alookup m.energy pt = none) (hle : amt ≤ MAX_STORED_ENERGY) :
    alookup (m.add_joules pt amt).2.energy pt = some amt := by
  have hmin : min MAX_STORED_ENERGY ((alookup m.energy pt).getD 0 + amt)
      = amt := by
    rw [h]
    show min MAX_STORED_ENERGY (0 + amt) = amt
    omega
  show alookup (aset m.energy pt
      (min MAX_STORED_ENERGY ((alookup m.energy pt).getD 0 + amt))) pt
    = some amt
  rw [hmin, alookup_aset_self]

theorem add_packet_other_fields (m : Map) (loc : Point) (pkt : MatPacket)
    (ph : Phase) :
    (m.add_packet loc pkt ph).2.energy = m.energy ∧
    (m.add_packet loc pkt ph).2.objects = m.objects ∧
    (m.add_packet loc pkt ph).2.registrations = m.registrations := by
  cases ph
  · cases hg : alookup m.gas_packets loc <;>
      simp [Map.add_packet, hg]
  · cases hl : alookup m.liquid_packets loc <;>
      simp [Map.add_packet, hl]

theorem add_packet_gas_keeps_liquid (m : Map) (loc : Point)
    (pkt : MatPacket) :
    (m.add_packet loc pkt Phase.Gas).2.liquid_packets
      = m.liquid_packets := by
  cases hg : alookup m.gas_packets loc <;> simp [Map.add_packet, hg]

theorem add_packet_liquid_keeps_gas (m : Map) (loc : Point)
    (pkt : MatPacket) :
    (m.add_packet loc pkt Phase.Liquid).2.gas_packets
      = m.gas_packets := by
  cases hl : alookup m.liquid_packets loc <;> simp [Map.add_packet, hl]

theorem add_packet_store_ne (m : Map) (loc p : Point) (pkt : MatPacket)
    (ph : Phase) (h : p ≠ loc) :
    alookup ((m.add_packet loc pkt ph).2.phase_store ph) p
      = alookup (m.phase_store ph) p := by
  cases ph
  · cases hg : alookup m.gas_packets loc <;>
      simp [Map.add_packet, Map.phase_store, hg,
        alookup_aset_ne _ _ _ _ h]
  · cases hl : alookup m.liquid_packets loc <;>
      simp [Map.add_packet, Map.phase_store, hl,
        alookup_aset_ne _ _ _ _ h]

theorem add_packet_lookup_self (m : Map) (loc : Point) (pkt : MatPacket)
    (ph : Phase) :
    alookup ((m.add_packet loc pkt ph).2.phase_store ph) loc
      = replayStep ph (alookup (m.phase_store ph) loc) pkt := by
  cases ph
  · cases hg : alookup m.gas_packets loc <;>
      simp [Map.add_packet, Map.phase_store, replayStep, hg,
        alookup_aset_self]
  · cases hl : alookup m.liquid_packets loc <;>
      simp [Map.add_packet, Map.phase_store, replayStep, hl,
        alookup_aset_self]

theorem add_object_other_fields (m : Map) (loc : Point) (ob : List Nat) :
    (m.add_object loc ob).2.energy = m.energy ∧
    (m.add_object loc ob).2.gas_packets = m.gas_packets ∧
    (m.add_object loc ob).2.liquid_packets = m.liquid_packets ∧
    (m.add_object loc ob).2.registrations = m.registrations := by
  cases ho : alookup m.objects loc with
  | none => simp [Map.add_object, ho]
  | some vec =>
    by_cases hl : vec.length ≥ MAX_STORED_OBJECTS <;>
      simp [Map.add_object, ho, hl]

theorem add_object_lookup_ne (m : Map) (loc p : Point) (ob : List Nat)
    (h : p ≠ loc) :
    alookup (m.add_object loc ob).2.objects p = alookup m.objects p := by
  cases ho : alookup m.objects loc with
  | none => simp [Map.add_object, ho, alookup_aset_ne _ _ _ _ h]
  | some vec =>
    by_cases hl : vec.length ≥ MAX_STORED_OBJECTS <;>
      simp [Map.add_object, ho, hl, alookup_aset_ne _ _ _ _ h]

theorem add_object_lookup_none (m : Map) (loc : Point) (ob : List Nat)
    (h : alookup m.objects loc = none) :
    alookup (m.add_object loc ob).2.objects loc = some [ob] := by
  simp [Map.add_object, h, alookup_aset_self]

theorem add_object_lookup_some (m : Map) (loc : Point) (ob : List Nat)
    (vec : List (List Nat)) (h : alookup m.objects loc = some vec)
    (hlen : vec.length < MAX_STORED_OBJECTS) :
    alookup (m.add_object loc ob).2.objects loc = some (vec ++ [ob]) := by
  have hge : ¬ vec.length ≥ MAX_STORED_OBJECTS := by omega
  simp [Map.add_object, h, hge, alookup_aset_self]

theorem b64len_le (n mos : Nat) (h : n ≤ mos) :
    b64len n ≤ (mos + 2) * 4 / 3 := by
  unfold b64len
  calc 4 * ((n + 2) / 3) ≤ 4 * (n + 2) / 3 :=
        Nat.mul_div_le_mul_div_assoc 4 (n + 2) 3
    _ ≤ 4 * (mos + 2) / 3 :=
        Nat.div_le_div_right (Nat.mul_le_mul_left 4 (by omega))
    _ = (mos + 2) * 4 / 3 := by rw [Nat.mul_comm]

theorem fold_add_packet_fields (pt : Point) (ph : Phase)
    (arr : List MatPacket) :
    ∀ m : Map,
      (arr.foldl (fun m packet => (m.add_packet pt packet ph).2) m).energy
          = m.energy ∧
      (arr.foldl (fun m packet => (m.add_packet pt packet ph).2) m).objects
          = m.objects ∧
      (arr.foldl (fun m packet =>
          (m.add_packet pt packet ph).2) m).registrations
        = m.registrations := by
  induction arr with
  | nil => intro m; exact ⟨rfl, rfl, rfl⟩
  | cons a r ih =>
    intro m
    simp only [List.foldl_cons]
    obtain ⟨h1, h2, h3⟩ := ih (m.add_packet pt a ph).2
    obtain ⟨g1, g2, g3⟩ := add_packet_other_fields m pt a ph
    exact ⟨h1.trans g1, h2.trans g2, h3.trans g3⟩

theorem fold_add_packet_gas_keeps_liquid (pt : Point)
    (arr : List MatPacket) :
    ∀ m : Map,
      (arr.foldl (fun m packet =>
          (m.add_packet pt packet Phase.Gas).2) m).liquid_packets
        = m.liquid_packets := by
  induction arr with
  | nil => intro m; rfl
  | cons a r ih =>
    intro m
    simp only [List.foldl_cons]
    exact (ih _).trans (add_packet_gas_keeps_liquid m pt a)

theorem fold_add_packet_liquid_keeps_gas (pt : Point)
    (arr : List MatPacket) :
    ∀ m : Map,
      (arr.foldl (fun m packet =>
          (m.add_packet pt packet Phase.Liquid).2) m).gas_packets
        = m.gas_packets := by
  induction arr with
  | nil => intro m; rfl
  | cons a r ih =>
    intro m
    simp only [List.foldl_cons]
    exact (ih _).trans (add_packet_liquid_keeps_gas m pt a)

theorem fold_add_packet_store_ne (pt p : Point) (ph : Phase)
    (h : p ≠ pt) (arr : List MatPacket) :
    ∀ m : Map,
      alookup ((arr.foldl (fun m packet =>
          (m.add_packet pt packet ph).2) m).phase_store ph) p
        = alookup (m.phase_store ph) p := by
  induction arr with
  | nil => intro m; rfl
  | cons a r ih =>
    intro m
    simp only [List.foldl_cons]
    exact (ih _).trans (add_packet_store_ne m pt p a ph h)

theorem fold_add_packet_self (pt : Point) (ph : Phase)
    (arr : List MatPacket) :
    ∀ m : Map,
      alookup ((arr.foldl (fun m packet =>
          (m.add_packet pt packet ph).2) m).phase_store ph) pt
        = arr.foldl (replayStep ph) (alookup (m.phase_store ph) pt) := by
  induction arr with
  | nil => intro m; rfl
  | cons a r ih =>
    intro m
    simp only [List.foldl_cons]
    rw [ih, add_packet_lookup_self]

theorem fold_add_object_fields (mos : Nat) (pt : Point)
    (arr : List (List Nat)) :
    ∀ m : Map,
      (arr.foldl (fun m obj =>
          if b64len obj.length > (mos + 2) * 4 / 3 then m
          else if obj.length ≤ mos then (m.add_object pt obj).2
          else m) m).energy = m.energy ∧
      (arr.foldl (fun m obj =>
          if b64len obj.length > (mos + 2) * 4 / 3 then m
          else if obj.length ≤ mos then (m.add_object pt obj).2
          else m) m).gas_packets = m.gas_packets ∧
      (arr.foldl (fun m obj =>
          if b64len obj.length > (mos + 2) * 4 / 3 then m
          else if obj.length ≤ mos then (m.add_object pt obj).2
          else m) m).liquid_packets = m.liquid_packets ∧
      (arr.foldl (fun m obj =>
          if b64len obj.length > (mos + 2) * 4 / 3 then m
          else if obj.length ≤ mos then (m.add_object pt obj).2
          else m) m).registrations = m.registrations := by
  induction arr with
  | nil => intro m; exact ⟨rfl, rfl, rfl, rfl⟩
  | cons a r ih =>
    intro m
    simp only [List.foldl_cons]
    obtain ⟨h1, h2, h3, h4⟩ := ih
      (if b64len a.length > (mos + 2) * 4 / 3 then m
       else if a.length ≤ mos then (m.add_object pt a).2 else m)
    refine ⟨h1.trans ?_, h2.trans ?_, h3.trans ?_, h4.trans ?_⟩ <;>
      · obtain ⟨g1, g2, g3, g4⟩ := add_object_other_fields m pt a
        by_cases hb : b64len a.length > (mos + 2) * 4 / 3 <;>
          by_cases hm : a.length ≤ mos <;>
          simp [hb, hm, g1, g2, g3, g4]

theorem fold_add_object_ne (mos : Nat) (pt p : Point) (h : p ≠ pt)
    (arr : List (List Nat)) :
    ∀ m : Map,
      alookup ((arr.foldl (fun m obj =>
          if b64len obj.length > (mos + 2) * 4 / 3 then m
          else if obj.length ≤ mos then (m.add_object pt obj).2
          else m) m).objects) p
        = alookup m.objects p := by
  induction arr with
  | nil => intro m; rfl
  | cons a r ih =>
    intro m
    simp only [List.foldl_cons]
    refine (ih _).trans ?_
    by_cases hb : b64len a.length > (mos + 2) * 4 / 3 <;>
      by_cases hm : a.length ≤ mos <;>
      simp [hb, hm, add_object_lookup_ne m pt p a h]

theorem fold_add_object_self (mos : Nat) (pt : Point)
    (rest : List (List Nat)) :
    ∀ (m : Map) (pre : List (List Nat)),
      alookup m.objects pt = some pre →
      pre.length + rest.length ≤ MAX_STORED_OBJECTS →
      (∀ b ∈ rest, b.length ≤ mos) →
      alookup ((rest.foldl (fun m obj =>
          if b64len obj.length > (mos + 2) * 4 / 3 then m
          else if obj.length ≤ mos then (m.add_object pt obj).2
          else m) m).objects) pt
        = some (pre ++ rest) := by
  induction rest with
  | nil =>
    intro m pre hm _ _
    simpa using hm
  | cons b r ih =>
    intro m pre hm hlen hsz
    have hbm : b.length ≤ mos := hsz b (List.mem_cons_self _ _)
    have hb : ¬ b64len b.length > (mos + 2) * 4 / 3 := by
      have := b64len_le b.length mos hbm
      omega
    have hpre : pre.length < MAX_STORED_OBJECTS := by
      simp only [List.length_cons] at hlen
      omega
    simp only [List.foldl_cons, if_neg hb, if_pos hbm]
    have hstep := add_object_lookup_some m pt b pre hm hpre
    have := ih (m.add_object pt b).2 (pre ++ [b])
      hstep (by simp only [List.length_append, List.length_singleton,
        List.length_cons, List.length_nil] at hlen ⊢; omega)
      (fun x hx => hsz x (List.mem_cons_of_mem _ hx))
    rw [this, List.append_assoc]
    rfl

theorem fold_add_object_virgin (mos : Nat) (pt : Point)
    (arr : List (List Nat)) (m : Map)
    (h0 : alookup m.objects pt = none)
    (hlen : arr.length ≤ MAX_STORED_OBJECTS)
    (hsz : ∀ b ∈ arr, b.length ≤ mos) :
    alookup ((arr.foldl (fun m obj =>
        if b64len obj.length > (mos + 2) * 4 / 3 then m
        else if obj.length ≤ mos then (m.add_object pt obj).2
        else m) m).objects) pt
      = if arr = [] then none else some arr := by
  cases arr with
  | nil => simpa using h0
  | cons b r =>
    have hbm : b.length ≤ mos := hsz b (List.mem_cons_self _ _)
    have hb : ¬ b64len b.length > (mos + 2) * 4 / 3 := by
      have := b64len_le b.length mos hbm
      omega
    simp only [List.foldl_cons, if_neg hb, if_pos hbm]
    have hstep := add_object_lookup_none m pt b h0
    have := fold_add_object_self mos pt r (m.add_object pt b).2 [b]
      hstep (by simp only [List.length_singleton,
        List.length_cons, List.length_nil] at hlen ⊢; omega)
      (fun x hx => hsz x (List.mem_cons_of_mem _ hx))
    rw [this]
    simp





theorem loadTile_eq (mos : Nat) (m : Map) (pt : Point) (t : TileJson) :
    loadTile mos m pt t
      = loadObjs mos pt t.objects
          (loadQueue Phase.Liquid pt t.liquid_packets
            (loadQueue Phase.Gas pt t.gas_packets
              (loadEnergy pt t.energy m))) := rfl

theorem loadEnergy_fields (pt : Point) (te : Option Nat) (m : Map) :
    (loadEnergy pt te m).gas_packets = m.gas_packets ∧
    (loadEnergy pt te m).liquid_packets = m.liquid_packets ∧
    (loadEnergy pt te m).objects = m.objects ∧
    (loadEnergy pt te m).registrations = m.registrations := by
  cases te with
  | none => exact ⟨rfl, rfl, rfl, rfl⟩
  | some n =>
    by_cases hn : n ≤ u32max <;>
      simp [loadEnergy, hn, add_joules_other_fields]

theorem loadEnergy_lookup_ne (pt p : Point) (te : Option Nat) (m : Map)
    (h : p ≠ pt) :
    alookup (loadEnergy pt te m).energy p = alookup m.energy p := by
  cases te with
  | none => rfl
  | some n =>
    by_cases hn : n ≤ u32max <;>
      simp [loadEnergy, hn, add_joules_energy_ne m pt p n h]

theorem loadEnergy_virgin (pt : Point) (te : Option Nat) (m : Map)
    (h : alookup m.energy pt = none)
    (hwf : ∀ v, te = some v → 0 < v ∧ v ≤ MAX_STORED_ENERGY) :
    alookup (loadEnergy pt te m).energy pt = te := by
  cases te with
  | none => exact h
  | some n =>
    obtain ⟨_, hle⟩ := hwf n rfl
    have hn : n ≤ u32max := by
      have : MAX_STORED_ENERGY ≤ u32max := by decide
      omega
    simp [loadEnergy, hn, add_joules_lookup_none m pt n h hle]

theorem loadQueue_fields (ph : Phase) (pt : Point)
    (tq : Option (List MatPacket)) (m : Map) :
    (loadQueue ph pt tq m).energy = m.energy ∧
    (loadQueue ph pt tq m).objects = m.objects ∧
    (loadQueue ph pt tq m).registrations = m.registrations := by
  cases tq with
  | none => exact ⟨rfl, rfl, rfl⟩
  | some arr => exact fold_add_packet_fields pt ph arr m

theorem loadQueue_gas_keeps_liquid (pt : Point)
    (tq : Option (List MatPacket)) (m : Map) :
    (loadQueue Phase.Gas pt tq m).liquid_packets = m.liquid_packets := by
  cases tq with
  | none => rfl
  | some arr => exact fold_add_packet_gas_keeps_liquid pt arr m

theorem loadQueue_liquid_keeps_gas (pt : Point)
    (tq : Option (List MatPacket)) (m : Map) :
    (loadQueue Phase.Liquid pt tq m).gas_packets = m.gas_packets := by
  cases tq with
  | none => rfl
  | some arr => exact fold_add_packet_liquid_keeps_gas pt arr m

theorem loadQueue_store_ne (ph : Phase) (pt p : Point)
    (tq : Option (List MatPacket)) (m : Map) (h : p ≠ pt) :
    alookup ((loadQueue ph pt tq m).phase_store ph) p
      = alookup (m.phase_store ph) p := by
  cases tq with
  | none => rfl
  | some arr => exact fold_add_packet_store_ne pt p ph h arr m

theorem loadQueue_virgin (ph : Phase) (pt : Point)
    (tq : Option (List MatPacket)) (m : Map)
    (h : alookup (m.phase_store ph) pt = none)
    (hwf : ∀ q, tq = some q → q ≠ [] ∧ replay ph q = some q) :
    alookup ((loadQueue ph pt tq m).phase_store ph) pt = tq := by
  cases tq with
  | none => exact h
  | some arr =>
    obtain ⟨_, hrep⟩ := hwf arr rfl
    show alookup ((arr.foldl (fun m packet =>
        (m.add_packet pt packet ph).2) m).phase_store ph) pt = some arr
    rw [fold_add_packet_self, h]
    exact hrep

theorem loadObjs_fields (mos : Nat) (pt : Point)
    (tob : Option (List (List Nat))) (m : Map) :
    (loadObjs mos pt tob m).energy = m.energy ∧
    (loadObjs mos pt tob m).gas_packets = m.gas_packets ∧
    (loadObjs mos pt tob m).liquid_packets = m.liquid_packets ∧
    (loadObjs mos pt tob m).registrations = m.registrations := by
  cases tob with
  | none => exact ⟨rfl, rfl, rfl, rfl⟩
  | some arr => exact fold_add_object_fields mos pt arr m

theorem loadObjs_lookup_ne (mos : Nat) (pt p : Point)
    (tob : Option (List (List Nat))) (m : Map) (h : p ≠ pt) :
    alookup (loadObjs mos pt tob m).objects p
      = alookup m.objects p := by
  cases tob with
  | none => rfl
  | some arr => exact fold_add_object_ne mos pt p h arr m

theorem loadObjs_virgin (mos : Nat) (pt : Point)
    (tob : Option (List (List Nat))) (m : Map)
    (h : alookup m.objects pt = none)
    (hwf : ∀ os, tob = some os →
      os ≠ [] ∧ os.length ≤ MAX_STORED_OBJECTS ∧
        ∀ b ∈ os, b.length ≤ mos) :
    alookup (loadObjs mos pt tob m).objects pt = tob := by
  cases tob with
  | none => exact h
  | some arr =>
    obtain ⟨harr, hlen, hsz⟩ := hwf arr rfl
    show alookup ((arr.foldl (fun m obj =>
        if b64len obj.length > (mos + 2) * 4 / 3 then m
        else if obj.length ≤ mos then (m.add_object pt obj).2
        else m) m).objects) pt = some arr
    rw [fold_add_object_virgin mos pt arr m h hlen hsz, if_neg harr]

theorem loadTile_registrations (mos : Nat) (m : Map) (pt : Point)
    (t : TileJson) :
    (loadTile mos m pt t).registrations = m.registrations := by
  rw [loadTile_eq]
  rw [(loadObjs_fields mos pt t.objects _).2.2.2,
    (loadQueue_fields Phase.Liquid pt t.liquid_packets _).2.2,
    (loadQueue_fields Phase.Gas pt t.gas_packets _).2.2,
    (loadEnergy_fields pt t.energy m).2.2.2]

theorem loadTile_frame (mos : Nat) (m : Map) (pt p : Point) (t : TileJson)
    (h : p ≠ pt) :
    alookup (loadTile mos m pt t).energy p = alookup m.energy p ∧
    alookup (loadTile mos m pt t).gas_packets p
      = alookup m.gas_packets p ∧
    alookup (loadTile mos m pt t).liquid_packets p
      = alookup m.liquid_packets p ∧
    alookup (loadTile mos m pt t).objects p = alookup m.objects p := by
  rw [loadTile_eq]
  refine ⟨?_, ?_, ?_, ?_⟩
  · rw [(loadObjs_fields mos pt t.objects _).1,
      (loadQueue_fields Phase.Liquid pt t.liquid_packets _).1,
      (loadQueue_fields Phase.Gas pt t.gas_packets _).1]
    exact loadEnergy_lookup_ne pt p t.energy m h
  · rw [(loadObjs_fields mos pt t.objects _).2.1,
      loadQueue_liquid_keeps_gas pt t.liquid_packets _]
    have := loadQueue_store_ne Phase.Gas pt p t.gas_packets
      (loadEnergy pt t.energy m) h
    simp only [Map.phase_store] at this
    rw [this, (loadEnergy_fields pt t.energy m).1]
  · rw [(loadObjs_fields mos pt t.objects _).2.2.1]
    have := loadQueue_store_ne Phase.Liquid pt p t.liquid_packets
      (loadQueue Phase.Gas pt t.gas_packets (loadEnergy pt t.energy m)) h
    simp only [Map.phase_store] at this
    rw [this, loadQueue_gas_keeps_liquid pt t.gas_packets _,
      (loadEnergy_fields pt t.energy m).2.1]
  · rw [loadObjs_lookup_ne mos pt p t.objects _ h,
      (loadQueue_fields Phase.Liquid pt t.liquid_packets _).2.1,
      (loadQueue_fields Phase.Gas pt t.gas_packets _).2.1,
      (loadEnergy_fields pt t.energy m).2.2.1]

theorem loadTile_virgin (mos : Nat) (m : Map) (pt : Point) (t : TileJson)
    (hwf : WFTile mos t)
    (he : alookup m.energy pt = none)
    (hg : alookup m.gas_packets pt = none)
    (hl : alookup m.liquid_packets pt = none)
    (ho : alookup m.objects pt = none) :
    alookup (loadTile mos m pt t).energy pt = t.energy ∧
    alookup (loadTile mos m pt t).gas_packets pt = t.gas_packets ∧
    alookup (loadTile mos m pt t).liquid_packets pt
      = t.liquid_packets ∧
    alookup (loadTile mos m pt t).objects pt = t.objects := by
  obtain ⟨hwe, hwg, hwl, hwo⟩ := hwf
  rw [loadTile_eq]
  refine ⟨?_, ?_, ?_, ?_⟩
  · rw [(loadObjs_fields mos pt t.objects _).1,
      (loadQueue_fields Phase.Liquid pt t.liquid_packets _).1,
      (loadQueue_fields Phase.Gas pt t.gas_packets _).1]
    exact loadEnergy_virgin pt t.energy m he hwe
  · rw [(loadObjs_fields mos pt t.objects _).2.1,
      loadQueue_liquid_keeps_gas pt t.liquid_packets _]
    have := loadQueue_virgin Phase.Gas pt t.gas_packets
      (loadEnergy pt t.energy m)
      (by show alookup (loadEnergy pt t.energy m).gas_packets pt = none
          rw [(loadEnergy_fields pt t.energy m).1]
          exact hg) hwg
    simpa only [Map.phase_store] using this
  · rw [(loadObjs_fields mos pt t.objects _).2.2.1]
    have := loadQueue_virgin Phase.Liquid pt t.liquid_packets
      (loadQueue Phase.Gas pt t.gas_packets (loadEnergy pt t.energy m))
      (by show alookup (loadQueue Phase.Gas pt t.gas_packets
            (loadEnergy pt t.energy m)).liquid_packets pt = none
          rw [loadQueue_gas_keeps_liquid pt t.gas_packets _,
            (loadEnergy_fields pt t.energy m).2.1]
          exact hl) hwl
    simpa only [Map.phase_store] using this
  · apply loadObjs_virgin mos pt t.objects _ _ hwo
    rw [(loadQueue_fields Phase.Liquid pt t.liquid_packets _).2.1,
      (loadQueue_fields Phase.Gas pt t.gas_packets _).2.1,
      (loadEnergy_fields pt t.energy m).2.2.1]
    exact ho





theorem loadEntries_cons (mos : Nat) (kt : List Char × TileJson)
    (r : List (List Char × TileJson)) (m : Map) :
    loadEntries mos (kt :: r) m
      = loadEntries mos r
          (match parseKey kt.1 with
           | some point => loadTile mos m point kt.2
           | none => m) := rfl

theorem loadEntries_registrations (mos : Nat)
    (entries : List (List Char × TileJson)) :
    ∀ m : Map,
      (loadEntries mos entries m).registrations = m.registrations := by
  induction entries with
  | nil => intro m; rfl
  | cons kt r ih =>
    intro m
    rw [loadEntries_cons]
    cases hk : parseKey kt.1 <;> simp [ih, loadTile_registrations]

theorem loadEntries_frame (mos : Nat) (p : Point)
    (entries : List (List Char × TileJson)) :
    (∀ kt ∈ entries, ∃ q, PtOK q ∧ kt.1 = q.as_string) →
    p.as_string ∉ entries.map Prod.fst →
    ∀ m : Map,
      alookup (loadEntries mos entries m).energy p
          = alookup m.energy p ∧
      alookup (loadEntries mos entries m).gas_packets p
          = alookup m.gas_packets p ∧
      alookup (loadEntries mos entries m).liquid_packets p
          = alookup m.liquid_packets p ∧
      alookup (loadEntries mos entries m).objects p
          = alookup m.objects p := by
  induction entries with
  | nil => intro _ _ m; exact ⟨rfl, rfl, rfl, rfl⟩
  | cons kt r ih =>
    intro hprov hnot m
    obtain ⟨k1, t1⟩ := kt
    simp only [List.map_cons, List.mem_cons, not_or] at hnot
    obtain ⟨q, hqok, hq⟩ := hprov (k1, t1) (List.mem_cons_self _ _)
    have hprov' : ∀ kt ∈ r, ∃ q, PtOK q ∧ kt.1 = q.as_string :=
      fun x hx => hprov x (List.mem_cons_of_mem _ hx)
    rw [loadEntries_cons]
    cases hk : parseKey (k1, t1).1 with
    | none => exact ih hprov' hnot.2 m
    | some pt =>
      have hq1 : k1 = Point.as_string q := hq
      have hpk2 : pt = q := by
        rw [hq1, parseKey_as_string q hqok] at hk
        injection hk with hh
        exact hh.symm
      subst hpk2
      have hne : p ≠ pt := by
        rintro rfl
        exact hnot.1 hq1.symm
      obtain ⟨f1, f2, f3, f4⟩ := loadTile_frame mos m pt p t1 hne
      obtain ⟨i1, i2, i3, i4⟩ := ih hprov' hnot.2 (loadTile mos m pt t1)
      exact ⟨i1.trans f1, i2.trans f2, i3.trans f3, i4.trans f4⟩

theorem WFTile_tileOf (m : Map) (mos : Nat) (hinv : SaveInv m mos)
    (q : Point) : WFTile mos (tileOf m q) := by
  obtain ⟨_, _, _, _, hie, hig, hil, hio⟩ := hinv
  refine ⟨?_, ?_, ?_, ?_⟩
  · intro v hv
    have hv' : (alookup m.energy q).bind
        (fun v => if v > 0 then some v else none) = some v := hv
    cases he : alookup m.energy q with
    | none => rw [he] at hv'; simp at hv'
    | some v0 =>
      rw [he] at hv'
      by_cases h0 : v0 > 0
      · simp only [Option.some_bind, if_pos h0, Option.some.injEq] at hv'
        subst hv'
        exact ⟨h0, (hie _ (alookup_mem _ _ _ he)).2⟩
      · simp [h0] at hv'
  · intro qq hv
    have hv' : (alookup m.gas_packets q).bind
        (fun x => if x.length > 0 then some x else none) = some qq := hv
    cases he : alookup m.gas_packets q with
    | none => rw [he] at hv'; simp at hv'
    | some q0 =>
      rw [he] at hv'
      by_cases h0 : q0.length > 0
      · simp only [Option.some_bind, if_pos h0, Option.some.injEq] at hv'
        subst hv'
        have hne : q0 ≠ [] := by
          intro hnil
          rw [hnil] at h0
          simp at h0
        exact ⟨hne, (hig _ (alookup_mem _ _ _ he)).2 hne⟩
      · simp [h0] at hv'
  · intro qq hv
    have hv' : (alookup m.liquid_packets q).bind
        (fun x => if x.length > 0 then some x else none) = some qq := hv
    cases he : alookup m.liquid_packets q with
    | none => rw [he] at hv'; simp at hv'
    | some q0 =>
      rw [he] at hv'
      by_cases h0 : q0.length > 0
      · simp only [Option.some_bind, if_pos h0, Option.some.injEq] at hv'
        subst hv'
        have hne : q0 ≠ [] := by
          intro hnil
          rw [hnil] at h0
          simp at h0
        exact ⟨hne, (hil _ (alookup_mem _ _ _ he)).2 hne⟩
      · simp [h0] at hv'
  · intro os hv
    have hv' : (alookup m.objects q).bind
        (fun x => if x.length > 0 then some x else none) = some os := hv
    cases he : alookup m.objects q with
    | none => rw [he] at hv'; simp at hv'
    | some q0 =>
      rw [he] at hv'
      by_cases h0 : q0.length > 0
      · simp only [Option.some_bind, if_pos h0, Option.some.injEq] at hv'
        subst hv'
        have hne : q0 ≠ [] := by
          intro hnil
          rw [hnil] at h0
          simp at h0
        obtain ⟨_, hlen, hsz⟩ := hio _ (alookup_mem _ _ _ he)
        exact ⟨hne, hlen, hsz⟩
      · simp [h0] at hv'

theorem loadEntries_lookup (mos : Nat) (p : Point) (hp : PtOK p)
    (entries : List (List Char × TileJson)) :
    (∀ kt ∈ entries, ∃ q, PtOK q ∧ kt.1 = q.as_string) →
    (entries.map Prod.fst).Nodup →
    (∀ kt ∈ entries, WFTile mos kt.2) →
    ∀ m : Map,
      alookup m.energy p = none → alookup m.gas_packets p = none →
      alookup m.liquid_packets p = none → alookup m.objects p = none →
      alookup (loadEntries mos entries m).energy p
          = (alookup entries p.as_string).bind (fun t => t.energy) ∧
      alookup (loadEntries mos entries m).gas_packets p
          = (alookup entries p.as_string).bind
              (fun t => t.gas_packets) ∧
      alookup (loadEntries mos entries m).liquid_packets p
          = (alookup entries p.as_string).bind
              (fun t => t.liquid_packets) ∧
      alookup (loadEntries mos entries m).objects p
          = (alookup entries p.as_string).bind (fun t => t.objects) := by
  induction entries with
  | nil =>
    intro _ _ _ m h1 h2 h3 h4
    exact ⟨h1, h2, h3, h4⟩
  | cons kt r ih =>
    intro hprov hnd hwf m h1 h2 h3 h4
    obtain ⟨k1, t1⟩ := kt
    simp only [List.map_cons, List.nodup_cons] at hnd
    obtain ⟨q, hqok, hq⟩ := hprov (k1, t1) (List.mem_cons_self _ _)
    have hprov' : ∀ kt ∈ r, ∃ q, PtOK q ∧ kt.1 = q.as_string :=
      fun x hx => hprov x (List.mem_cons_of_mem _ hx)
    have hwf' : ∀ kt ∈ r, WFTile mos kt.2 :=
      fun x hx => hwf x (List.mem_cons_of_mem _ hx)
    rw [loadEntries_cons]
    by_cases hkp : k1 = p.as_string
    · have hqp : q = p := as_string_inj q p hqok hp (by rw [← hq, hkp])
      subst hqp
      have hq1 : k1 = Point.as_string q := hq
      have hpk : parseKey k1 = some q := by
        rw [hq1]
        exact parseKey_as_string q hqok
      rw [show (loadEntries mos r
            (match parseKey (k1, t1).1 with
             | some point => loadTile mos m point t1
             | none => m))
          = loadEntries mos r
              (match parseKey k1 with
               | some point => loadTile mos m point t1
               | none => m) from rfl, hpk]
      have hrhs : alookup ((k1, t1) :: r) q.as_string = some t1 := by
        show (if k1 = q.as_string then some t1
            else alookup r q.as_string) = some t1
        rw [if_pos hkp]
      have hkeys : q.as_string ∉ r.map Prod.fst := by
        rw [← hkp]
        exact hnd.1
      obtain ⟨f1, f2, f3, f4⟩ :=
        loadEntries_frame mos q r hprov' hkeys (loadTile mos m q t1)
      obtain ⟨v1, v2, v3, v4⟩ := loadTile_virgin mos m q t1
        (hwf (k1, t1) (List.mem_cons_self _ _)) h1 h2 h3 h4
      rw [hrhs]
      exact ⟨f1.trans v1, f2.trans v2, f3.trans v3, f4.trans v4⟩
    · have hrhs : alookup ((k1, t1) :: r) p.as_string
          = alookup r p.as_string := by
        show (if k1 = p.as_string then some t1
            else alookup r p.as_string) = alookup r p.as_string
        rw [if_neg hkp]
      rw [hrhs]
      cases hk : parseKey (k1, t1).1 with
      | none => exact ih hprov' hnd.2 hwf' m h1 h2 h3 h4
      | some pt =>
        have hq1 : k1 = Point.as_string q := hq
        have hpk2 : pt = q := by
          rw [hq1, parseKey_as_string q hqok] at hk
          injection hk with hh
          exact hh.symm
        subst hpk2
        have hne : p ≠ pt := by
          rintro rfl
          exact hkp hq1
        obtain ⟨f1, f2, f3, f4⟩ := loadTile_frame mos m pt p t1 hne
        exact ih hprov' hnd.2 hwf' (loadTile mos m pt t1)
          (f1.trans h1) (f2.trans h2) (f3.trans h3) (f4.trans h4)





theorem try_save_entries_wf (m : Map) (mos : Nat) (hinv : SaveInv m mos) :
    ∀ kt ∈ m.try_save, WFTile mos kt.2 := by
  intro kt hkt
  obtain ⟨q, hqok, hq⟩ := try_save_key_prov m mos hinv kt hkt
  have hl : alookup m.try_save kt.1 = some kt.2 :=
    alookup_of_mem_nodup m.try_save kt hkt (try_save_keys_nodup m)
  rw [hq, try_save_lookup m mos hinv q hqok] at hl
  by_cases hemp : tileOf m q = emptyTile
  · rw [if_pos hemp] at hl
    exact absurd hl (by simp)
  · rw [if_neg hemp] at hl
    injection hl with hl
    rw [← hl]
    exact WFTile_tileOf m mos hinv q

/-- C3: snapshot round-trip. For a map satisfying the operational save
invariants (distinct hash keys, server-constructed points with z = 0 and
i32 coordinates, capped energy, replay-stable queues, bounded objects),
`try_load` applied to the `try_save` snapshot succeeds and reproduces the
map's observable tile content at every server-constructible point: the
loaded map agrees with the original on `tileOf` everywhere (so queue
ordering is preserved and zero-energy / empty-queue tiles come back
erased), and the loaded map has no registrations. The original claim's
"for every map M" is corrected: a tile at a point with z ≠ 0 is saved
under an "x,y,z" key that `try_load` silently skips (see the
counterexample), so the round-trip only holds on the z = 0 plane the
server actually uses. -/
theorem snapshot_roundtrip (m : Map) (mos : Nat) (hinv : SaveInv m mos) :
    ∃ m', m.try_load (JsonTop.object m.try_save) mos = Except.ok m' ∧
      m'.registrations = [] ∧
      ∀ p : Point, PtOK p → tileOf m' p = tileOf m p := by
  refine ⟨loadEntries mos m.try_save Map.new, rfl, ?_, ?_⟩
  · rw [loadEntries_registrations]
    rfl
  · intro p hp
    obtain ⟨hE, hG, hL, hO⟩ := loadEntries_lookup mos p hp m.try_save
      (try_save_key_prov m mos hinv) (try_save_keys_nodup m)
      (try_save_entries_wf m mos hinv) Map.new rfl rfl rfl rfl
    rw [try_save_lookup m mos hinv p hp] at hE hG hL hO
    by_cases hemp : tileOf m p = emptyTile
    · rw [if_pos hemp] at hE hG hL hO
      simp only [Option.none_bind] at hE hG hL hO
      rw [hemp]
      show TileJson.mk
          ((alookup (loadEntries mos m.try_save Map.new).energy p).bind
            (fun v => if v > 0 then some v else none))
          ((alookup (loadEntries mos m.try_save Map.new).gas_packets
              p).bind (fun q => if q.length > 0 then some q else none))
          ((alookup (loadEntries mos m.try_save Map.new).liquid_packets
              p).bind (fun q => if q.length > 0 then some q else none))
          ((alookup (loadEntries mos m.try_save Map.new).objects p).bind
            (fun q => if q.length > 0 then some q else none))
        = emptyTile
      rw [hE, hG, hL, hO]
      rfl
    · rw [if_neg hemp] at hE hG hL hO
      simp only [Option.some_bind] at hE hG hL hO
      obtain ⟨we, wg, wl, wo⟩ := WFTile_tileOf m mos hinv p
      have key : tileOf (loadEntries mos m.try_save Map.new) p
          = TileJson.mk (tileOf m p).energy (tileOf m p).gas_packets
              (tileOf m p).liquid_packets (tileOf m p).objects := by
        show TileJson.mk
            ((alookup (loadEntries mos m.try_save Map.new).energy p).bind
              (fun v => if v > 0 then some v else none))
            ((alookup (loadEntries mos m.try_save Map.new).gas_packets
                p).bind (fun q => if q.length > 0 then some q else none))
            ((alookup (loadEntries mos m.try_save Map.new).liquid_packets
                p).bind (fun q => if q.length > 0 then some q else none))
            ((alookup (loadEntries mos m.try_save Map.new).objects p).bind
              (fun q => if q.length > 0 then some q else none))
          = TileJson.mk (tileOf m p).energy (tileOf m p).gas_packets
              (tileOf m p).liquid_packets (tileOf m p).objects
        rw [hE, hG, hL, hO]
        congr 1
        · cases ht : (tileOf m p).energy with
          | none => rfl
          | some v => simp [(we v ht).1]
        · cases ht : (tileOf m p).gas_packets with
          | none => rfl
          | some qv => simp [List.length_pos.mpr (wg qv ht).1]
        · cases ht : (tileOf m p).liquid_packets with
          | none => rfl
          | some qv => simp [List.length_pos.mpr (wl qv ht).1]
        · cases ht : (tileOf m p).objects with
          | none => rfl
          | some ov => simp [List.length_pos.mpr (wo ov ht).1]
      rw [key]

/-- C3 counterexample: a tile off the z = 0 plane does not survive the
round-trip. A map holding 500 J at (1,2,3) saves under the key "1,2,3",
which `try_load`'s key parser skips, so loading the snapshot yields the
empty map and the energy entry is gone. -/
theorem snapshot_drops_z_tile :
    (Map.mk [(⟨1, 2, 3⟩, 500)] [] [] [] []).try_load
        (JsonTop.object
          (Map.mk [(⟨1, 2, 3⟩, 500)] [] [] [] []).try_save) 100
      = Except.ok Map.new ∧
    alookup (Map.mk [(⟨1, 2, 3⟩, 500)] [] [] [] []).energy ⟨1, 2, 3⟩
      = some 500 ∧
    alookup Map.new.energy ⟨1, 2, 3⟩ = none := by
  refine ⟨rfl, rfl, rfl⟩

/-- Witness for C3 at a concrete one-tile map. -/
theorem snapshot_roundtrip_witness :
    SaveInv (Map.mk [(⟨3, -4, 0⟩, 250)] [] [] [] []) 100 ∧
    (∃ m', (Map.mk [(⟨3, -4, 0⟩, 250)] [] [] [] []).try_load
        (JsonTop.object
          (Map.mk [(⟨3, -4, 0⟩, 250)] [] [] [] []).try_save) 100
      = Except.ok m' ∧ m'.registrations = [] ∧
      ∀ p : Point, PtOK p →
        tileOf m' p
          = tileOf (Map.mk [(⟨3, -4, 0⟩, 250)] [] [] [] []) p) :=
  ⟨by decide, snapshot_roundtrip _ 100 (by decide)⟩



end Onizd
